import Mathlib

/-!
Verification of the OCR text parser (`src/lib/ocrParser.ts`) and the image
preprocessing filters (`src/lib/imagePreprocessor.ts`) of the
tauri-experiment repository.

JavaScript strings are modelled as `List Char`; JavaScript numbers are
modelled exactly: integer-valued computations as `ℕ`/`ℤ` and fractional
values as `ℚ` (decimal results of `parseFloat` are built with
`Rat.ofScientific`, the same constructor Lean uses for decimal literals).
The `Int32Array` used for the summed-area table is modelled with an explicit
wrap-around `toInt32`.  The current calendar year (`new Date().getFullYear()`)
is threaded through the parser as an explicit `year : ℕ` parameter.

Regular-expression matching is embedded by a small backtracking engine
(`matRE`/`searchAux`) whose constructs mirror JavaScript regex semantics
(ordered alternation, greedy and lazy quantifiers with backtracking,
negative lookahead, `$` anchor, leftmost-match search); each regex literal
of the source is transcribed into a `RE` value next to a comment quoting it.
-/

/-! ### JavaScript character classes -/

/-- Characters matched by the JavaScript regex class `\s` (also the set
trimmed by `String.prototype.trim`). -/
def isJsSpace (c : Char) : Bool :=
  c = ' ' || c = '\t' || c = '\n' || c.toNat = 11 || c.toNat = 12 || c = '\r' ||
  c.toNat = 0xa0 || c.toNat = 0x1680 ||
  (0x2000 ≤ c.toNat && c.toNat ≤ 0x200a) ||
  c.toNat = 0x2028 || c.toNat = 0x2029 || c.toNat = 0x202f ||
  c.toNat = 0x205f || c.toNat = 0x3000 || c.toNat = 0xfeff

/-- JavaScript line terminators (`\n`, `\r`, U+2028, U+2029): the positions
at which `^`/`$` match under the `m` flag. -/
def isLineTerm (c : Char) : Bool :=
  c = '\n' || c = '\r' || c.toNat = 0x2028 || c.toNat = 0x2029

/-- The JavaScript regex `.` (any character except a line terminator). -/
def isDotChar (c : Char) : Bool := !(isLineTerm c)

/-- The JavaScript regex class `\w` = `[A-Za-z0-9_]`. -/
def isWordChar (c : Char) : Bool := c.isAlphanum || c = '_'

/-- The class `[\d,]`. -/
def isDigitComma (c : Char) : Bool := c.isDigit || c = ','

/-- The class `[–—-]` (hyphen, en dash U+2013, em dash U+2014). -/
def isDashChar (c : Char) : Bool := c = '-' || c.toNat = 0x2013 || c.toNat = 0x2014

/-- The class `[:\s]`. -/
def isColonSpace (c : Char) : Bool := c = ':' || isJsSpace c

/-- The class `[,\s]`. -/
def isCommaSpace (c : Char) : Bool := c = ',' || isJsSpace c

/-! ### Small string utilities mirroring the JavaScript ones -/

/-- Numeric value of a digit string (used for `parseInt` on `\d+` captures). -/
def digitsVal (cs : List Char) : ℕ :=
  cs.foldl (fun a c => a * 10 + (c.toNat - 48)) 0

/-- Model of `String.prototype.trim` (strips `\s` from both ends). -/
def jsTrim (cs : List Char) : List Char :=
  ((cs.dropWhile isJsSpace).reverse.dropWhile isJsSpace).reverse

/-- Splits a list at every separator character (`String.prototype.split`
with a single-character class; separators are not kept). -/
def splitOnPred (p : Char → Bool) : List Char → List (List Char)
  | [] => [[]]
  | c :: rest =>
    match splitOnPred p rest with
    | [] => [[c]]
    | hd :: tl => if p c then [] :: hd :: tl else (c :: hd) :: tl

/-- Lines of a string for the purpose of the regex `m` flag: pieces between
JavaScript line terminators. -/
def jsLines (cs : List Char) : List (List Char) := splitOnPred isLineTerm cs

/-- Model of `str.replace(",", "")`: a string pattern replaces only the
first occurrence. -/
def removeFirstComma : List Char → List Char
  | [] => []
  | c :: rest => if c = ',' then rest else c :: removeFirstComma rest

/-- Model of JavaScript `parseFloat` on the strings produced by the parser
regexes (digits / a single dot / stray commas; no sign or exponent occurs
there).  Parses the longest valid numeric prefix `digits[.digits]` and
returns its exact decimal value; `none` models `NaN`. -/
def parseFloatQ (cs : List Char) : Option ℚ :=
  let ip := cs.takeWhile Char.isDigit
  match cs.drop ip.length with
  | '.' :: rest2 =>
    let fp := rest2.takeWhile Char.isDigit
    if ip.isEmpty && fp.isEmpty then none
    else some (Rat.ofScientific (digitsVal (ip ++ fp)) true fp.length)
  | _ => if ip.isEmpty then none else some (Rat.ofScientific (digitsVal ip) true 0)

/-- Model of JavaScript `parseInt` on the strings the parser feeds it
(captures of `\d+` / `\d{1,2}` / `\d{4}`): value of the leading digit run,
`none` modelling `NaN` when there is none. -/
def parseIntJS (cs : List Char) : Option ℕ :=
  let ds := cs.takeWhile Char.isDigit
  if ds.isEmpty then none else some (digitsVal ds)

/-- Decimal digits of a natural number (`String(n)`). -/
def natChars (n : ℕ) : List Char := (Nat.repr n).data

/-- Model of `String(n).padStart(2, "0")`. -/
def pad2 (n : ℕ) : List Char :=
  let r := natChars n
  if r.length ≤ 1 then '0' :: r else r

/-! ### A backtracking regex engine with JavaScript semantics

Quantified atoms in the source regexes are single character classes, so the
engine provides class-quantifiers (`starCls`, `plusCls`, `lazyPlusCls`,
`repCls`) plus ordered alternation, greedy option, capture groups, negative
lookahead and the `$` anchor.  Matching is continuation-passing with full
backtracking, exactly like the JavaScript backtracking matcher: the first
alternative / the longest (shortest, for lazy) repetition that lets the rest
of the pattern succeed wins. -/

/-- Abstract syntax of the regexes used by the parser. -/
inductive RE where
  | eps : RE
  | cls : (Char → Bool) → RE
  | cat : RE → RE → RE
  | alt : RE → RE → RE
  | opt : RE → RE
  | starCls : (Char → Bool) → RE
  | plusCls : (Char → Bool) → RE
  | lazyPlusCls : (Char → Bool) → RE
  | repCls : (Char → Bool) → ℕ → ℕ → RE
  | group : ℕ → RE → RE
  | nlk : RE → RE
  | eos : RE

/-- Capture environment: group index to captured substring. -/
def Caps := ℕ → Option (List Char)

/-- The empty capture environment. -/
def emptyCaps : Caps := fun _ => none

/-- Records a capture. -/
def setCap (caps : Caps) (n : ℕ) (v : List Char) : Caps :=
  fun i => if i = n then some v else caps i

/-- Length of the run of class characters at the head of the input. -/
def leadCount (p : Char → Bool) (s : List Char) : ℕ := (s.takeWhile p).length

/-- Greedy zero-or-more of a class: try the counts `n, n-1, …, 0`. -/
def tryTake (s : List Char) (caps : Caps) (k : List Char → Caps → Option Caps) :
    ℕ → Option Caps
  | 0 => k s caps
  | n + 1 => k (s.drop (n + 1)) caps <|> tryTake s caps k n

/-- Greedy one-or-more of a class: try the counts `n, n-1, …, 1`. -/
def tryTakeMin1 (s : List Char) (caps : Caps) (k : List Char → Caps → Option Caps) :
    ℕ → Option Caps
  | 0 => none
  | n + 1 => k (s.drop (n + 1)) caps <|> tryTakeMin1 s caps k n

/-- Greedy bounded `{lo,·}` repetition of a class: try `n, n-1, …, lo`. -/
def tryTakeBetween (s : List Char) (caps : Caps) (k : List Char → Caps → Option Caps)
    (lo : ℕ) : ℕ → Option Caps
  | 0 => if lo = 0 then k s caps else none
  | n + 1 =>
    if n + 1 < lo then none
    else k (s.drop (n + 1)) caps <|> tryTakeBetween s caps k lo n

/-- Lazy one-or-more of a class: try the counts `i, i+1, …` (budgeted). -/
def tryTakeAsc (s : List Char) (caps : Caps) (k : List Char → Caps → Option Caps) :
    ℕ → ℕ → Option Caps
  | 0, _ => none
  | b + 1, i => k (s.drop i) caps <|> tryTakeAsc s caps k b (i + 1)

/-- The matcher.  `matRE r s caps k` tries to match `r` at the start of `s`
and calls the continuation `k` with the rest of the input and the updated
captures; `none` means the whole attempt (including the continuation)
failed, triggering backtracking in the caller. -/
def matRE : RE → List Char → Caps → (List Char → Caps → Option Caps) → Option Caps
  | .eps, s, caps, k => k s caps
  | .cls p, s, caps, k =>
    match s with
    | [] => none
    | c :: rest => if p c then k rest caps else none
  | .cat a b, s, caps, k => matRE a s caps (fun s2 caps2 => matRE b s2 caps2 k)
  | .alt a b, s, caps, k => matRE a s caps k <|> matRE b s caps k
  | .opt a, s, caps, k => matRE a s caps k <|> k s caps
  | .starCls p, s, caps, k => tryTake s caps k (leadCount p s)
  | .plusCls p, s, caps, k => tryTakeMin1 s caps k (leadCount p s)
  | .lazyPlusCls p, s, caps, k => tryTakeAsc s caps k (leadCount p s) 1
  | .repCls p lo hi, s, caps, k => tryTakeBetween s caps k lo (min hi (leadCount p s))
  | .group n a, s, caps, k =>
    matRE a s caps (fun s2 caps2 => k s2 (setCap caps2 n (s.take (s.length - s2.length))))
  | .nlk a, s, caps, k =>
    match matRE a s caps (fun _ c => some c) with
    | some _ => none
    | none => k s caps
  | .eos, s, caps, k =>
    match s with
    | [] => k [] caps
    | _ :: _ => none

/-- Tries to match `r` at the start of `s`; on success group 0 holds the
matched text (`match[0]`). -/
def matchTop (r : RE) (s : List Char) : Option Caps :=
  matRE r s emptyCaps
    (fun rest caps => some (setCap caps 0 (s.take (s.length - rest.length))))

/-- Leftmost-match search: try every position left to right (`String.match`
without the `g` flag).  `ok` receives the character before the current
position (for the word-boundary variant). -/
def searchAux (r : RE) (ok : Option Char → Bool) : Option Char → List Char → Option Caps
  | prev, [] => if ok prev then matchTop r [] else none
  | prev, c :: rest =>
    (if ok prev then matchTop r (c :: rest) else none) <|> searchAux r ok (some c) rest

/-- Leftmost search of a pattern anywhere in the input. -/
def searchRE (r : RE) (s : List Char) : Option Caps := searchAux r (fun _ => true) none s

/-- Leftmost search of a pattern starting with `\b` followed by a word
character: only positions preceded by a non-word character qualify. -/
def searchWB (r : RE) (s : List Char) : Option Caps :=
  searchAux r (fun prev => match prev with | none => true | some c => !isWordChar c) none s

/-- Model of `regex.test(text)` for an unanchored pattern. -/
def testRE (r : RE) (s : List Char) : Bool := (searchRE r s).isSome

/-- Case-sensitive literal character. -/
def chr (c : Char) : RE := .cls (fun x => x = c)

/-- Case-insensitive literal character (the `i` flag). -/
def chrCI (c : Char) : RE := .cls (fun x => x.toLower = c.toLower)

/-- Case-sensitive literal string. -/
def lit (s : String) : RE := s.data.foldr (fun c r => .cat (chr c) r) .eps

/-- Case-insensitive literal string. -/
def litCI (s : String) : RE := s.data.foldr (fun c r => .cat (chrCI c) r) .eps

/-- Chains a list of regexes in sequence. -/
def reSeq (rs : List RE) : RE := rs.foldr .cat .eps

/-! ### Result types of `ocrParser.ts` -/

/-- `type OcrEntryType = "week" | "day" | "unknown"`. -/
inductive OcrEntryType where
  | week | day | unknown
deriving DecidableEq, Repr

/-- `interface ParsedOffer`. -/
structure ParsedOffer where
  store : List Char
  total_earnings : Option ℚ
deriving Repr

/-- `interface ParsedWeek`. -/
structure ParsedWeek where
  date_start : Option (List Char)
  date_end : Option (List Char)
  active_time : Option ℕ
  total_time : Option ℕ
  completed_deliveries : Option ℕ
  total_earnings : Option ℚ
deriving Repr

/-- `interface ParsedDay`. -/
structure ParsedDay where
  date : Option (List Char)
  total_earnings : Option ℚ
  base_pay : Option ℚ
  tips : Option ℚ
  start_time : Option (List Char)
  end_time : Option (List Char)
  active_time : Option ℕ
  total_time : Option ℕ
  deliveries : Option ℕ
  offers : List ParsedOffer
deriving Repr

/-- `interface OcrParseResult` (absent optional fields modelled as `none`). -/
structure OcrParseResult where
  type : OcrEntryType
  week : Option ParsedWeek
  day : Option ParsedDay
  raw : List Char
deriving Repr

/-! ### Utility parsers of `ocrParser.ts` -/

/-- Regex `/\$?([\d,]+\.?\d{0,2})/` of `parseCurrency`. -/
def currencyRE : RE :=
  reSeq [.opt (chr '$'),
    .group 1 (reSeq [.plusCls isDigitComma, .opt (chr '.'), .repCls Char.isDigit 0 2])]

/-- `parseCurrency`: first dollar-amount match, `match[1].replace(",", "")`
(first comma only), `parseFloat`, `null` on no match or `NaN`. -/
def parseCurrency (text : List Char) : Option ℚ :=
  match searchRE currencyRE text with
  | none => none
  | some caps =>
    match caps 1 with
    | none => none
    | some g => parseFloatQ (removeFirstComma g)

/-- The alternation `(?:r|rs|our|ours)` (tried in source order). -/
def hourSufRE : RE := .alt (litCI "r") (.alt (litCI "rs") (.alt (litCI "our") (litCI "ours")))

/-- Regex `/(\d+)\s*h(?:r|rs|our|ours)?\s*(\d+)\s*m(?:in|ins)?/i` of `parseDuration`. -/
def durFullRE : RE :=
  reSeq [.group 1 (.plusCls Char.isDigit), .starCls isJsSpace, chrCI 'h', .opt hourSufRE,
    .starCls isJsSpace, .group 2 (.plusCls Char.isDigit), .starCls isJsSpace, chrCI 'm',
    .opt (.alt (litCI "in") (litCI "ins"))]

/-- Regex `/(\d+)\s*h(?:r|rs|our|ours)?(?!\s*\d)/i` of `parseDuration`. -/
def durHoursRE : RE :=
  reSeq [.group 1 (.plusCls Char.isDigit), .starCls isJsSpace, chrCI 'h', .opt hourSufRE,
    .nlk (reSeq [.starCls isJsSpace, .cls Char.isDigit])]

/-- Regex `/(\d+)\s*m(?:in|ins)?(?!\s*\d)/i` of `parseDuration`. -/
def durMinsRE : RE :=
  reSeq [.group 1 (.plusCls Char.isDigit), .starCls isJsSpace, chrCI 'm',
    .opt (.alt (litCI "in") (litCI "ins")),
    .nlk (reSeq [.starCls isJsSpace, .cls Char.isDigit])]

/-- `parseDuration`: combined `Xh Ym` form first, then hours only, then
minutes only. -/
def parseDuration (text : List Char) : Option ℕ :=
  match searchRE durFullRE text with
  | some caps =>
    (parseIntJS ((caps 1).getD [])).bind fun x =>
      (parseIntJS ((caps 2).getD [])).map fun y => x * 60 + y
  | none =>
    match searchRE durHoursRE text with
    | some caps => (parseIntJS ((caps 1).getD [])).map fun x => x * 60
    | none =>
      match searchRE durMinsRE text with
      | some caps => parseIntJS ((caps 1).getD [])
      | none => none

/-- Regex `/(\d{1,2}):(\d{2})\s*(AM|PM)?/i` of `parseTime`. -/
def timeRE : RE :=
  reSeq [.group 1 (.repCls Char.isDigit 1 2), chr ':', .group 2 (.repCls Char.isDigit 2 2),
    .starCls isJsSpace, .opt (.group 3 (.alt (litCI "AM") (litCI "PM")))]

/-- `parseTime`: converts `"10:32 AM"`-style text to 24-hour `"HH:MM"`. -/
def parseTime (raw : List Char) : Option (List Char) :=
  match searchRE timeRE raw with
  | none => none
  | some caps =>
    match parseIntJS ((caps 1).getD []), parseIntJS ((caps 2).getD []) with
    | some h0, some m =>
      let mer := (caps 3).map (fun l => l.map Char.toUpper)
      let h1 := if mer = some "PM".data && h0 ≠ 12 then h0 + 12 else h0
      let h2 := if mer = some "AM".data && h1 = 12 then 0 else h1
      some (pad2 h2 ++ ":".data ++ pad2 m)
    | _, _ => none

/-- The `MONTH_MAP` lookup table (keys are lowercase). -/
def monthMap (cs : List Char) : Option ℕ :=
  if cs = "jan".data then some 0 else if cs = "feb".data then some 1
  else if cs = "mar".data then some 2 else if cs = "apr".data then some 3
  else if cs = "may".data then some 4 else if cs = "jun".data then some 5
  else if cs = "jul".data then some 6 else if cs = "aug".data then some 7
  else if cs = "sep".data then some 8 else if cs = "oct".data then some 9
  else if cs = "nov".data then some 10 else if cs = "dec".data then some 11
  else if cs = "january".data then some 0 else if cs = "february".data then some 1
  else if cs = "march".data then some 2 else if cs = "april".data then some 3
  else if cs = "june".data then some 5 else if cs = "july".data then some 6
  else if cs = "august".data then some 7 else if cs = "september".data then some 8
  else if cs = "october".data then some 9 else if cs = "november".data then some 10
  else if cs = "december".data then some 11 else none

/-- Regex `/([A-Za-z]+)\s+(\d{1,2})(?:,?\s*(\d{4}))?/` of `parseLooseDate`. -/
def looseDateRE : RE :=
  reSeq [.group 1 (.plusCls Char.isAlpha), .plusCls isJsSpace,
    .group 2 (.repCls Char.isDigit 1 2),
    .opt (reSeq [.opt (chr ','), .starCls isJsSpace, .group 3 (.repCls Char.isDigit 4 4)])]

/-- `parseLooseDate`: `"Jan 6"`-style text to ISO `"YYYY-MM-DD"`, using the
passed current calendar `year` when no explicit year is present. -/
def parseLooseDate (year : ℕ) (raw : List Char) : Option (List Char) :=
  match searchRE looseDateRE raw with
  | none => none
  | some caps =>
    match monthMap (((caps 1).getD []).map Char.toLower) with
    | none => none
    | some month =>
      let day := (parseIntJS ((caps 2).getD [])).getD 0
      let fullYear := match caps 3 with
        | some g => (parseIntJS g).getD 0
        | none => year
      some (natChars fullYear ++ ("-".data ++ (pad2 (month + 1) ++ ("-".data ++ pad2 day))))

/-! ### Entry-type detection (`detectEntryType`) -/

/-- Regex `/^\s*dashes\s*$/im`, applied to one line. -/
def dashesLineRE : RE := reSeq [.starCls isJsSpace, litCI "dashes", .starCls isJsSpace, .eos]

/-- Regex `/week\s+of/i`. -/
def weekOfRE : RE := reSeq [litCI "week", .plusCls isJsSpace, litCI "of"]

/-- Regex `/[a-z]{3,9}\s+\d{1,2}\s*[–—-]+\s*\d{1,2}(?!\s*[a-z])/i`. -/
def compactRangeRE : RE :=
  reSeq [.repCls Char.isAlpha 3 9, .plusCls isJsSpace, .repCls Char.isDigit 1 2,
    .starCls isJsSpace, .plusCls isDashChar, .starCls isJsSpace, .repCls Char.isDigit 1 2,
    .nlk (reSeq [.starCls isJsSpace, .cls Char.isAlpha])]

/-- Regex `/[a-z]{3,9}\s+\d{1,2}\s*[–—-]+\s*[a-z]{3,9}\s+\d{1,2}/i`. -/
def crossRangeRE : RE :=
  reSeq [.repCls Char.isAlpha 3 9, .plusCls isJsSpace, .repCls Char.isDigit 1 2,
    .starCls isJsSpace, .plusCls isDashChar, .starCls isJsSpace,
    .repCls Char.isAlpha 3 9, .plusCls isJsSpace, .repCls Char.isDigit 1 2]

/-- Regex `/start\s+time/i`. -/
def startTimeRE : RE := reSeq [litCI "start", .plusCls isJsSpace, litCI "time"]

/-- Regex `/end\s+time/i`. -/
def endTimeRE : RE := reSeq [litCI "end", .plusCls isJsSpace, litCI "time"]

/-- Regex `/[a-z]{3,9}\s+\d{1,2},\s*\d{4}/i`. -/
def dateYearRE : RE :=
  reSeq [.repCls Char.isAlpha 3 9, .plusCls isJsSpace, .repCls Char.isDigit 1 2,
    chr ',', .starCls isJsSpace, .repCls Char.isDigit 4 4]

/-- Ordered alternation of a nonempty list of alternatives. -/
def altList : List RE → RE
  | [] => .eps
  | [r] => r
  | r :: rest => .alt r (altList rest)

/-- Regex `/^(mon|tue|wed|thu|fri|sat|sun)[a-z]*/im`, applied to one line. -/
def weekdayShortRE : RE :=
  reSeq [.group 1 (altList [litCI "mon", litCI "tue", litCI "wed", litCI "thu",
    litCI "fri", litCI "sat", litCI "sun"]), .starCls Char.isAlpha]

/-- Regex `/^(monday|tuesday|wednesday|thursday|friday|saturday|sunday)/im`,
applied to one line. -/
def weekdayLongRE : RE :=
  .group 1 (altList [litCI "monday", litCI "tuesday", litCI "wednesday",
    litCI "thursday", litCI "friday", litCI "saturday", litCI "sunday"])

/-- Regex `/start\s+time|end\s+time/i`. -/
def startOrEndTimeRE : RE := .alt startTimeRE endTimeRE

/-- `detectEntryType`: ordered heuristics, week signals before day signals,
first match wins. -/
def detectEntryType (text : List Char) : OcrEntryType :=
  if (jsLines text).any (fun l => (matchTop dashesLineRE l).isSome) then .week
  else if testRE weekOfRE text then .week
  else if testRE compactRangeRE text then .week
  else if testRE crossRangeRE text then .week
  else if testRE startTimeRE text || testRE endTimeRE text then .day
  else if testRE dateYearRE text then .day
  else if ((jsLines text).any (fun l => (matchTop weekdayShortRE l).isSome)
      || (jsLines text).any (fun l => (matchTop weekdayLongRE l).isSome))
      && testRE startOrEndTimeRE text then .day
  else .unknown

/-! ### Week parser (`parseWeek`) -/

/-- The fragment `[A-Za-z]+\s+\d{1,2}` (month name and day). -/
def monthDayFrag : RE :=
  reSeq [.plusCls Char.isAlpha, .plusCls isJsSpace, .repCls Char.isDigit 1 2]

/-- Regex `/([A-Za-z]+\s+\d{1,2})\s*[–—-]+\s*([A-Za-z]+\s+\d{1,2})/`. -/
def fullRangeRE : RE :=
  reSeq [.group 1 monthDayFrag, .starCls isJsSpace, .plusCls isDashChar,
    .starCls isJsSpace, .group 2 monthDayFrag]

/-- Regex `/([A-Za-z]+)\s+(\d{1,2})\s*[–—-]+\s*(\d{1,2})(?!\s*[a-z])/i`. -/
def compactWeekRE : RE :=
  reSeq [.group 1 (.plusCls Char.isAlpha), .plusCls isJsSpace,
    .group 2 (.repCls Char.isDigit 1 2), .starCls isJsSpace, .plusCls isDashChar,
    .starCls isJsSpace, .group 3 (.repCls Char.isDigit 1 2),
    .nlk (reSeq [.starCls isJsSpace, .cls Char.isAlpha])]

/-- Regex `/\$[\d,]+\.\d{2}/` (prominent dollar amount). -/
def earningsRE : RE :=
  reSeq [chr '$', .plusCls isDigitComma, chr '.', .repCls Char.isDigit 2 2]

/-- Regex `/completed\s+deliveries[:\s]+(\d+)/i`. -/
def delivRE1 : RE :=
  reSeq [litCI "completed", .plusCls isJsSpace, litCI "deliveries",
    .plusCls isColonSpace, .group 1 (.plusCls Char.isDigit)]

/-- Regex `/(\d+)\s+completed\s+deliveri(?:es|ed)/i`. -/
def delivRE2 : RE :=
  reSeq [.group 1 (.plusCls Char.isDigit), .plusCls isJsSpace, litCI "completed",
    .plusCls isJsSpace, litCI "deliveri", .alt (litCI "es") (litCI "ed")]

/-- Regex `/(\d+)\s+deliveri(?:es|ed)/i`. -/
def delivRE3 : RE :=
  reSeq [.group 1 (.plusCls Char.isDigit), .plusCls isJsSpace, litCI "deliveri",
    .alt (litCI "es") (litCI "ed")]

/-- Regex `/deliveries[:\s]+(\d+)/i`. -/
def delivRE4 : RE :=
  reSeq [litCI "deliveries", .plusCls isColonSpace, .group 1 (.plusCls Char.isDigit)]

/-- The fragment `[\d]+\s*h(?:r|rs)?` of the labelled-duration regexes. -/
def hrFrag : RE :=
  reSeq [.plusCls Char.isDigit, .starCls isJsSpace, chrCI 'h', .opt (.alt (litCI "r") (litCI "rs"))]

/-- The fragment `[\d]+\s*m(?:in)?` of the labelled-duration regexes. -/
def minFrag : RE :=
  reSeq [.plusCls Char.isDigit, .starCls isJsSpace, chrCI 'm', .opt (litCI "in")]

/-- The fragment `[\d]+\s*h(?:r|rs)?\s*[\d]+\s*m(?:in)?`. -/
def hmFrag : RE := reSeq [hrFrag, .starCls isJsSpace, minFrag]

/-- Builds the labelled-duration regex `/<label>[:\s]+(<frag>)/i`. -/
def labelDurRE (label : RE) (frag : RE) : RE :=
  reSeq [label, .plusCls isColonSpace, .group 1 frag]

/-- The label `active\s+time`. -/
def activeTimeLabel : RE := reSeq [litCI "active", .plusCls isJsSpace, litCI "time"]

/-- The label `dash\s+time`. -/
def dashTimeLabel : RE := reSeq [litCI "dash", .plusCls isJsSpace, litCI "time"]

/-- The label `total\s+time`. -/
def totalTimeLabel : RE := reSeq [litCI "total", .plusCls isJsSpace, litCI "time"]

/-- The `activeMatch` chain (`?? `-ordered). -/
def activeTimeSearch (text : List Char) : Option Caps :=
  searchRE (labelDurRE activeTimeLabel hmFrag) text <|>
  searchRE (labelDurRE activeTimeLabel hrFrag) text <|>
  searchRE (labelDurRE activeTimeLabel minFrag) text

/-- The `totalMatch` chain: `dash time` variants first, then `total time`. -/
def totalTimeSearch (text : List Char) : Option Caps :=
  searchRE (labelDurRE dashTimeLabel hmFrag) text <|>
  searchRE (labelDurRE dashTimeLabel hrFrag) text <|>
  searchRE (labelDurRE dashTimeLabel minFrag) text <|>
  searchRE (labelDurRE totalTimeLabel hmFrag) text <|>
  searchRE (labelDurRE totalTimeLabel hrFrag) text

/-- The ISO month field (`date.split("-")[1]`) as a number. -/
def isoMonthOf (d : List Char) : ℕ :=
  (parseIntJS (((splitOnPred (fun c => c = '-')) d).getD 1 [])).getD 0

/-- The ISO year field (`date.split("-")[0]`) as a number. -/
def isoYearOf (d : List Char) : ℕ :=
  (parseIntJS (((splitOnPred (fun c => c = '-')) d).getD 0 [])).getD 0

/-- `parseWeek`: extracts the week date range (with December→January year
wrap fix and compact-range fallback), earnings, deliveries and times. -/
def parseWeek (year : ℕ) (text : List Char) : ParsedWeek :=
  let fullCaps := searchRE fullRangeRE text
  let ds1 : Option (List Char) := fullCaps.bind fun caps =>
    parseLooseDate year ((caps 1).getD [])
  let de1 : Option (List Char) := fullCaps.bind fun caps =>
    parseLooseDate year ((caps 2).getD [])
  let de2 : Option (List Char) :=
    match ds1, de1 with
    | some s, some e =>
      if isoMonthOf e < isoMonthOf s then
        some (natChars (isoYearOf e + 1) ++ "-".data ++ e.drop 5)
      else some e
    | _, e => e
  let dsde : Option (List Char) × Option (List Char) :=
    match ds1 with
    | some s => (some s, de2)
    | none =>
      match searchRE compactWeekRE text with
      | some caps =>
        (parseLooseDate year ((caps 1).getD [] ++ " ".data ++ (caps 2).getD []),
         parseLooseDate year ((caps 1).getD [] ++ " ".data ++ (caps 3).getD []))
      | none => (none, de2)
  let total_earnings := (searchRE earningsRE text).bind fun caps =>
    parseCurrency ((caps 0).getD [])
  let deliveriesCaps := searchRE delivRE1 text <|> searchRE delivRE2 text <|>
    searchRE delivRE3 text <|> searchRE delivRE4 text
  let completed_deliveries := deliveriesCaps.bind fun caps => parseIntJS ((caps 1).getD [])
  let active_time := (activeTimeSearch text).bind fun caps => parseDuration ((caps 1).getD [])
  let total_time := (totalTimeSearch text).bind fun caps => parseDuration ((caps 1).getD [])
  { date_start := dsde.1, date_end := dsde.2, active_time, total_time,
    completed_deliveries, total_earnings }

/-! ### Day parser (`parseDay`) -/

/-- Regex
`/(?:mon|tue|wed|thu|fri|sat|sun)[a-z]*[,\s]+([A-Za-z]+\s+\d{1,2}(?:,?\s*\d{4})?)/i`. -/
def weekdayDateRE : RE :=
  reSeq [altList [litCI "mon", litCI "tue", litCI "wed", litCI "thu",
      litCI "fri", litCI "sat", litCI "sun"],
    .starCls Char.isAlpha, .plusCls isCommaSpace,
    .group 1 (reSeq [.plusCls Char.isAlpha, .plusCls isJsSpace, .repCls Char.isDigit 1 2,
      .opt (reSeq [.opt (chr ','), .starCls isJsSpace, .repCls Char.isDigit 4 4])])]

/-- Regex `/\b([A-Za-z]+\s+\d{1,2},\s*\d{4})\b/` (the leading `\b` is
enforced by the word-boundary search `searchWB`; the trailing `\b` after a
digit is the negative lookahead `(?!\w)`). -/
def standaloneYearRE : RE :=
  reSeq [.group 1 (reSeq [.plusCls Char.isAlpha, .plusCls isJsSpace,
      .repCls Char.isDigit 1 2, chr ',', .starCls isJsSpace, .repCls Char.isDigit 4 4]),
    .nlk (.cls isWordChar)]

/-- The fragment `\d{1,2}:\d{2}\s*(?:AM|PM)?`. -/
def clockFrag : RE :=
  reSeq [.repCls Char.isDigit 1 2, chr ':', .repCls Char.isDigit 2 2,
    .starCls isJsSpace, .opt (.alt (litCI "AM") (litCI "PM"))]

/-- Regex `/start\s+time[:\s]+(\d{1,2}:\d{2}\s*(?:AM|PM)?)/i`. -/
def startLabelRE : RE := reSeq [startTimeRE, .plusCls isColonSpace, .group 1 clockFrag]

/-- Regex `/end\s+time[:\s]+(\d{1,2}:\d{2}\s*(?:AM|PM)?)/i`. -/
def endLabelRE : RE := reSeq [endTimeRE, .plusCls isColonSpace, .group 1 clockFrag]

/-- Regex `/(\d{1,2}:\d{2}\s*(?:AM|PM)?)\s*[–—-]+\s*(\d{1,2}:\d{2}\s*(?:AM|PM)?)/i`. -/
def timeRangeRE : RE :=
  reSeq [.group 1 clockFrag, .starCls isJsSpace, .plusCls isDashChar,
    .starCls isJsSpace, .group 2 clockFrag]

/-- Regex `/doordash\s+pay[:\s]+\$?([\d,]+\.?\d{0,2})/i`. -/
def basePayRE : RE :=
  reSeq [litCI "doordash", .plusCls isJsSpace, litCI "pay", .plusCls isColonSpace,
    .opt (chr '$'),
    .group 1 (reSeq [.plusCls isDigitComma, .opt (chr '.'), .repCls Char.isDigit 0 2])]

/-- Regex `/customer\s+tips?[:\s]+\$?([\d,]+\.?\d{0,2})/i`. -/
def tipsRE : RE :=
  reSeq [litCI "customer", .plusCls isJsSpace, litCI "tip", .opt (chrCI 's'),
    .plusCls isColonSpace, .opt (chr '$'),
    .group 1 (reSeq [.plusCls isDigitComma, .opt (chr '.'), .repCls Char.isDigit 0 2])]

/-- The `OFFER_SKIP` regex
`/^(week|day|date|total|active|start|end|deliveri|dash|offers?\s*$|dashes?\s*$|\d+\s+doordash\s+offer|doordash\s+pay|customer\s+tips?)/i`
(anchored at the start of a line; tested with `matchTop`). -/
def offerSkipRE : RE :=
  .group 1 (altList [litCI "week", litCI "day", litCI "date", litCI "total",
    litCI "active", litCI "start", litCI "end", litCI "deliveri", litCI "dash",
    reSeq [litCI "offer", .opt (chrCI 's'), .starCls isJsSpace, .eos],
    reSeq [litCI "dashe", .opt (chrCI 's'), .starCls isJsSpace, .eos],
    reSeq [.plusCls Char.isDigit, .plusCls isJsSpace, litCI "doordash",
      .plusCls isJsSpace, litCI "offer"],
    reSeq [litCI "doordash", .plusCls isJsSpace, litCI "pay"],
    reSeq [litCI "customer", .plusCls isJsSpace, litCI "tip", .opt (chrCI 's')]])

/-- Model of `OFFER_SKIP.test(line)`. -/
def offerSkipTest (l : List Char) : Bool := (matchTop offerSkipRE l).isSome

/-- The `OFFER_AMOUNT_LINE` regex `/v?\s*\$[\d,]+\.\d{2}\s*[>]?\s*$/i`. -/
def offerAmountLineRE : RE :=
  reSeq [.opt (chrCI 'v'), .starCls isJsSpace, chr '$', .plusCls isDigitComma,
    chr '.', .repCls Char.isDigit 2 2, .starCls isJsSpace, .opt (chr '>'),
    .starCls isJsSpace, .eos]

/-- Model of `OFFER_AMOUNT_LINE.test(line)`. -/
def offerAmountTest (l : List Char) : Bool := testRE offerAmountLineRE l

/-- The pre-join pass of `parseDay`: a non-dollar, non-skippable line
immediately before a line carrying the offer-amount pattern is merged into
it (and the next line is consumed). -/
def preJoinLines : List (List Char) → List (List Char)
  | [] => []
  | [l] => [jsTrim l]
  | l :: l2 :: rest =>
    let cur := jsTrim l
    let next := jsTrim l2
    if !cur.isEmpty && !offerSkipTest cur && !cur.any (fun c => c = '$') &&
        offerAmountTest next then
      (cur ++ ' ' :: next) :: preJoinLines rest
    else cur :: preJoinLines (l2 :: rest)

/-- The offer extraction regex `/^(.+?)\s+v?\s*(\$[\d,]+\.\d{2})\s*[>]?\s*$/i`. -/
def offerLineRE : RE :=
  reSeq [.group 1 (.lazyPlusCls isDotChar), .plusCls isJsSpace, .opt (chrCI 'v'),
    .starCls isJsSpace,
    .group 2 (reSeq [chr '$', .plusCls isDigitComma, chr '.', .repCls Char.isDigit 2 2]),
    .starCls isJsSpace, .opt (chr '>'), .starCls isJsSpace, .eos]

/-- Regex `/^\d+$/` (pure-digit store name sanity filter). -/
def allDigitsRE : RE := reSeq [.plusCls Char.isDigit, .eos]

/-- One iteration of the offer-extraction loop: `none` models `continue`. -/
def offerOfLine (line : List Char) : Option ParsedOffer :=
  let trimmed := jsTrim line
  if trimmed.isEmpty || offerSkipTest trimmed then none
  else
    match matchTop offerLineRE trimmed with
    | none => none
    | some caps =>
      let store := jsTrim ((caps 1).getD [])
      let earnings := parseCurrency ((caps 2).getD [])
      if 2 < store.length && !(matchTop allDigitsRE store).isSome then
        some { store, total_earnings := earnings }
      else none

/-- `parseDay`: extracts the date, earnings, base pay and tips, time range,
durations, deliveries, and the offer list (after the pre-join pass). -/
def parseDay (year : ℕ) (text : List Char) : ParsedDay :=
  let dateRaw : Option (List Char) :=
    ((searchRE weekdayDateRE text).bind fun caps => caps 1) <|>
    ((searchWB standaloneYearRE text).bind fun caps => caps 1)
  let date := dateRaw.bind (parseLooseDate year)
  let total_earnings := (searchRE earningsRE text).bind fun caps =>
    parseCurrency ((caps 0).getD [])
  let st0 : Option (List Char) := (searchRE startLabelRE text).bind fun caps =>
    parseTime ((caps 1).getD [])
  let et0 : Option (List Char) := (searchRE endLabelRE text).bind fun caps =>
    parseTime ((caps 1).getD [])
  let stet : Option (List Char) × Option (List Char) :=
    if st0.isNone || et0.isNone then
      match searchRE timeRangeRE text with
      | some caps =>
        (if st0.isNone then parseTime ((caps 1).getD []) else st0,
         if et0.isNone then parseTime ((caps 2).getD []) else et0)
      | none => (st0, et0)
    else (st0, et0)
  let active_time := (activeTimeSearch text).bind fun caps => parseDuration ((caps 1).getD [])
  let total_time := (totalTimeSearch text).bind fun caps => parseDuration ((caps 1).getD [])
  let deliveriesCaps := searchRE delivRE4 text <|> searchRE delivRE3 text
  let deliveries := deliveriesCaps.bind fun caps => parseIntJS ((caps 1).getD [])
  let base_pay := (searchRE basePayRE text).bind fun caps => parseCurrency ((caps 1).getD [])
  let tips := (searchRE tipsRE text).bind fun caps => parseCurrency ((caps 1).getD [])
  let joined := preJoinLines (splitOnPred (fun c => c = '\n') text)
  let offers := joined.filterMap offerOfLine
  { date, total_earnings, base_pay, tips, start_time := stet.1, end_time := stet.2,
    active_time, total_time, deliveries, offers }

/-! ### Public API (`parseOcrText`) -/

/-- `parseOcrText`: detect the entry type and run the matching extractor
(`unknown` still attempts a day parse). -/
def parseOcrText (year : ℕ) (rawText : List Char) : OcrParseResult :=
  match detectEntryType rawText with
  | .week => { type := .week, week := some (parseWeek year rawText), day := none, raw := rawText }
  | .day => { type := .day, week := none, day := some (parseDay year rawText), raw := rawText }
  | .unknown =>
    { type := .unknown, week := none, day := some (parseDay year rawText), raw := rawText }

/-! ### Box blur (`applyBoxBlur` in `imagePreprocessor.ts`)

Grayscale buffers appear both as index functions `ℕ → ℕ` (value of the pixel
at an index / coordinate pair) and as `List ℕ` for buffer-level facts. -/

/-- `Math.round(s / d)` for natural `s` and positive natural `d`
(`Math.round` is `⌊x + 1/2⌋`). -/
def natRound (s d : ℕ) : ℕ := (2 * s + d) / (2 * d)

/-- `Math.max(0, Math.min(n - 1, i))`: clamps a sample coordinate to the
valid range (edge replication). -/
def clampIdx (n : ℕ) (i : ℤ) : ℕ := (max 0 (min ((n : ℤ) - 1) i)).toNat

/-- Sum of the clamped sliding window of width `2r+1` centred at `x`
(the value the running sum of the source holds before emitting pixel `x`). -/
def windowSum (f : ℕ → ℕ) (n r : ℕ) (x : ℤ) : ℕ :=
  ∑ k ∈ Finset.range (2 * r + 1), f (clampIdx n (x - r + k))

/-- The 1-D sliding-window loop: emits `Math.round(sum / diameter)` and then
advances the running sum by the entering pixel `f(min(n-1, x+r+1))` minus
the exiting pixel `f(max(0, x-r))` (natural subtraction is exact here
because the exiting pixel is part of the window sum). -/
def blurLineGo (f : ℕ → ℕ) (n d r : ℕ) : ℕ → ℕ → ℕ → List ℕ
  | 0, _, _ => []
  | count + 1, x, sum =>
    natRound sum d :: blurLineGo f n d r count (x + 1) (sum + f (min (n - 1) (x + r + 1)) - f (x - r))

/-- One 1-D pass of the box blur over a line of length `n`: seed the window
sum at `x = 0`, then slide. -/
def boxBlurLine (f : ℕ → ℕ) (n r : ℕ) : List ℕ :=
  blurLineGo f n (2 * r + 1) r n 0 (windowSum f n r 0)

/-- `applyBoxBlur` as a function on coordinates: horizontal 1-D pass into
`tmp`, then vertical 1-D pass over `tmp`. -/
def applyBoxBlur (g : ℕ → ℕ → ℕ) (w h r : ℕ) : ℕ → ℕ → ℕ :=
  fun y x =>
    (boxBlurLine (fun j => (boxBlurLine (fun i => g j i) w r).getD x 0) h r).getD y 0

/-- `applyBoxBlur` at the buffer level: a new `Uint8Array(gray.length)` with
`out[y*w + x]` given by the two-pass blur (for a `w*h` buffer). -/
def applyBoxBlurBuf (gray : List ℕ) (w h r : ℕ) : List ℕ :=
  (List.range (w * h)).map fun idx =>
    applyBoxBlur (fun y x => gray.getD (y * w + x) 0) w h r (idx / w) (idx % w)

/-! ### Binarizers (`applyGlobalThreshold`, `applyAdaptiveThreshold`) -/

/-- `out[i] = gray[i] >= threshold ? 255 : 0`.  The threshold is a
JavaScript number, modelled as `ℚ`. -/
def applyGlobalThreshold (gray : List ℕ) (threshold : ℚ) : List ℕ :=
  gray.map fun p : ℕ => if threshold ≤ (p : ℚ) then 255 else 0

/-- Wrap-around of a value stored into an `Int32Array`. -/
def toInt32 (z : ℤ) : ℤ := (z + 2 ^ 31) % 2 ^ 32 - 2 ^ 31

/-- One row of the summed-area table, left to right, carrying the stored
left neighbour and the stored above-left neighbour:
`sat[idx] = gray[idx] + above + left - aboveLeft` (each store wraps). -/
def satRowGo (gRow : ℕ → ℤ) (above : ℕ → ℤ) : ℕ → ℕ → ℤ → ℤ → List ℤ
  | 0, _, _, _ => []
  | count + 1, x, left, aboveLeft =>
    let v := toInt32 (gRow x + above x + left - aboveLeft)
    v :: satRowGo gRow above count (x + 1) v (above x)

/-- The summed-area table rows `0 … h-1`; row `y` reads row `y-1` through
`getD` (zero outside, matching the `y > 0 ? … : 0` guards). -/
def satRows (g : ℕ → ℕ → ℤ) (w : ℕ) : ℕ → List (List ℤ)
  | 0 => []
  | h + 1 =>
    let prev := satRows g w h
    prev ++ [satRowGo (g h) (fun x => (prev.getD (h - 1) []).getD x 0) w 0 0 0]

/-- A single summed-area-table lookup `sat[y * w + x]`. -/
def satAt (g : ℕ → ℕ → ℤ) (w h y x : ℕ) : ℤ := ((satRows g w h).getD y []).getD x 0

/-- `applyAdaptiveThreshold`: per-pixel threshold = clamped-window mean
(four SAT lookups, divided by the actual window area) plus `bias`; the
pixel becomes 255 iff its own value reaches the local mean. -/
def applyAdaptiveThreshold (gray : List ℕ) (w h radius : ℕ) (bias : ℚ) : List ℕ :=
  let g : ℕ → ℕ → ℤ := fun y x => (gray.getD (y * w + x) 0 : ℤ)
  (List.range gray.length).map fun idx =>
    if idx < w * h then
      let y := idx / w
      let x := idx % w
      let x0 := x - radius
      let y0 := y - radius
      let x1 := min (w - 1) (x + radius)
      let y1 := min (h - 1) (y + radius)
      let area := (x1 - x0 + 1) * (y1 - y0 + 1)
      let sumBR := satAt g w h y1 x1
      let sumTR := if 0 < y0 then satAt g w h (y0 - 1) x1 else 0
      let sumBL := if 0 < x0 then satAt g w h y1 (x0 - 1) else 0
      let sumTL := if 0 < y0 ∧ 0 < x0 then satAt g w h (y0 - 1) (x0 - 1) else 0
      let localSum := sumBR - sumTR - sumBL + sumTL
      let localMean : ℚ := (localSum : ℚ) / (area : ℚ) + bias
      if localMean ≤ (gray.getD idx 0 : ℚ) then 255 else 0
    else 0

/-! ### Laplacian sharpen (`applyLaplacianSharpen`) -/

/-- `Math.round` on an exact value (`⌊x + 1/2⌋`). -/
def jsRound (q : ℚ) : ℤ := ⌊q + 1 / 2⌋

/-- `Math.max(0, Math.min(255, z))`. -/
def clamp255 (z : ℤ) : ℤ := max 0 (min 255 z)

/-- `applyLaplacianSharpen` as a function on `(y, x, channel)`: interior
pixels get the 3×3 kernel with centre `strength` and cardinal arms
`-(strength-1)/4` on the colour channels (alpha forced to 255); border
pixels are copied unmodified (`copyPixel` copies all four channels). -/
def applyLaplacianSharpen (strength : ℚ) (src : ℕ → ℕ → ℕ → ℕ) (w h : ℕ) :
    ℕ → ℕ → ℕ → ℕ :=
  let center := strength
  let arm := -((strength - 1) / 4)
  fun y x c =>
    if 1 ≤ y ∧ y < h - 1 ∧ 1 ≤ x ∧ x < w - 1 then
      if c < 3 then
        (clamp255 (jsRound (center * src y x c + arm * src (y - 1) x c +
          arm * src (y + 1) x c + arm * src y (x - 1) c + arm * src y (x + 1) c))).toNat
      else 255
    else src y x c

/-! ### Claim C1: end-to-end scenario -/

/-- The raw OCR text of the end-to-end scenario. -/
def c1RawText : List Char :=
  ("Mon, Jan 6\nStart Time 10:27 AM\nEnd Time 12:12 PM\nActive Time 1hr30 min\nTaco Bell v $14.40").data

/-- C1: for the end-to-end raw OCR text, `parseOcrText` classifies the entry
as `day`, and the day record has date `"<currentYear>-01-06"` (ISO form for
the current calendar year), start time `"10:27"`, end time `"12:12"`,
active time 90 minutes and exactly one offer
`{store := "Taco Bell", total_earnings := 14.40}`. -/
theorem c1_end_to_end (year : ℕ) :
    parseOcrText year c1RawText =
      { type := .day, week := none,
        day := some
          { date := some (natChars year ++ "-01-06".data),
            total_earnings := some 14.40, base_pay := none, tips := none,
            start_time := some "10:27".data, end_time := some "12:12".data,
            active_time := some 90, total_time := none, deliveries := none,
            offers := [{ store := "Taco Bell".data, total_earnings := some 14.40 }] },
        raw := c1RawText } := rfl

/-! ### Claim C6: offer line pre-joining -/

/-- The two wrapped offer lines of the reconstruction scenario. -/
def c6RawText : List Char := ("Taco Bell - 031435, Taco Bell\n- 031435 v $14.40").data

/-- C6: the pre-join pass merges the dollar-less line with the following
amount line into one logical line, and the extraction pass yields exactly
one offer with earnings 14.40. -/
theorem c6_offer_prejoin (year : ℕ) :
    preJoinLines (splitOnPred (fun c => c = '\n') c6RawText) =
      [("Taco Bell - 031435, Taco Bell - 031435 v $14.40").data] ∧
    (parseDay year c6RawText).offers =
      [{ store := ("Taco Bell - 031435, Taco Bell - 031435").data,
         total_earnings := some 14.40 }] :=
  ⟨rfl, rfl⟩

/-! ### Claim C2: the text parser is total and best-effort -/

/-- C2: `parseOcrText` is a total function (the embedding itself is a Lean
function, so every extractor terminates and never throws); for every input
string it returns a fully constructed record carrying the raw input, with
the week record present exactly when the text classifies as `week` and the
day record present otherwise (every field of those records is an `Option`,
`none` marking an undetermined field). -/
theorem c2_parse_total (year : ℕ) (s : List Char) :
    (parseOcrText year s).raw = s ∧
    ((parseOcrText year s).type = .week →
      (parseOcrText year s).week = some (parseWeek year s) ∧
      (parseOcrText year s).day = none) ∧
    ((parseOcrText year s).type ≠ .week →
      (parseOcrText year s).day = some (parseDay year s) ∧
      (parseOcrText year s).week = none) := by
  unfold parseOcrText
  cases detectEntryType s <;> simp

/-- Witness for C2 at a concrete input. -/
theorem c2_parse_total_witness :
    (parseOcrText 2025 "hello".data).raw = "hello".data ∧
    (parseOcrText 2025 "hello".data).day = some (parseDay 2025 "hello".data) :=
  ⟨(c2_parse_total 2025 "hello".data).1,
   ((c2_parse_total 2025 "hello".data).2.2 (by decide)).1⟩

/-! ### Claim C5: a standalone "Dashes" line forces the week classification -/

/-- C5: any text with a standalone `Dashes` line (the `/^\s*dashes\s*$/im`
test) classifies as `week`, regardless of what else the text contains (the
dashes rule is evaluated before every day signal and the first matching
rule wins). -/
theorem c5_dashes_wins (text : List Char)
    (h : ∃ l ∈ jsLines text, (matchTop dashesLineRE l).isSome) :
    detectEntryType text = .week := by
  unfold detectEntryType
  have hb : (jsLines text).any (fun l => (matchTop dashesLineRE l).isSome) = true :=
    List.any_eq_true.mpr h
  rw [hb]
  rfl

/-- Witness for C5: a text containing both a standalone `Dashes` line and a
`Start Time` day signal still classifies as `week`. -/
theorem c5_dashes_wins_witness :
    (∃ l ∈ jsLines ("Dashes\nStart Time 10:27 AM").data,
      (matchTop dashesLineRE l).isSome) ∧
    testRE startTimeRE ("Dashes\nStart Time 10:27 AM").data = true ∧
    detectEntryType ("Dashes\nStart Time 10:27 AM").data = .week :=
  ⟨by decide, by decide, c5_dashes_wins _ (by decide)⟩

/-! ### Claim C3 (corrected): currency parsing strips only the first comma -/

/-- C3 counterexample: with several thousands separators the code strips
only the first one (`String.replace` with a string pattern), so
`parseFloat` stops at the next comma and `"$1,234,567.89"` parses to 1234,
not 1234567.89 as claimed. -/
theorem c3_counterexample :
    parseCurrency ("$1,234,567.89").data = some 1234 ∧ (1234 : ℚ) ≠ 1234567.89 := by
  constructor
  · have h : parseCurrency ("$1,234,567.89").data = some (Rat.ofScientific 1234 true 0) := rfl
    rw [h, Rat.ofScientific_eq_ofScientific]
    norm_num
  · intro h
    rw [show (1234567.89 : ℚ) = OfScientific.ofScientific 123456789 true 2 from rfl] at h
    norm_num at h

/-- C3 (amended): `parseCurrency` returns the value of the first
`\$?([\d,]+\.?\d{0,2})` match with only the first thousands separator
stripped — `"$1,234.56"` parses to 1234.56, but with several separators
`parseFloat` stops at the second comma, so `"$1,234,567.89"` parses to
1234; `"Total $0.00"` parses to 0.00 (zero, not null), and the result is
null when there is no numeric match (or when the parse yields `NaN`, as
for a bare `","` match). -/
theorem c3_currency_amended :
    parseCurrency ("$1,234.56").data = some 1234.56 ∧
    parseCurrency ("$1,234,567.89").data = some 1234 ∧
    parseCurrency ("Total $0.00").data = some 0.00 ∧
    parseCurrency ("no amount here").data = none ∧
    parseCurrency (",").data = none := by
  refine ⟨rfl, ?_, rfl, rfl, rfl⟩
  have h : parseCurrency ("$1,234,567.89").data = some (Rat.ofScientific 1234 true 0) := rfl
  rw [h, Rat.ofScientific_eq_ofScientific]
  norm_num

lemma getD_pair (l : List ℕ) (hl : ∀ x ∈ l, x = 0 ∨ x = 255) (i : ℕ) :
    l.getD i 0 = 0 ∨ l.getD i 0 = 255 := by
  rcases lt_or_ge i l.length with h | h
  · rw [List.getD_eq_getElem l 0 h]
    exact hl _ (List.getElem_mem h)
  · left
    exact List.getD_eq_default l 0 h

lemma ite_eq_or {c : Prop} [Decidable c] (x y : ℕ) :
    (if c then x else y) = y ∨ (if c then x else y) = x := by
  split
  · right; rfl
  · left; rfl

theorem c10_binarizer_two_valued (gray : List ℕ) (t : ℚ) (w h radius : ℕ) (bias : ℚ)
    (i : ℕ) :
    (applyGlobalThreshold gray t).length = gray.length ∧
    ((applyGlobalThreshold gray t).getD i 0 = 0 ∨
      (applyGlobalThreshold gray t).getD i 0 = 255) ∧
    (applyAdaptiveThreshold gray w h radius bias).length = gray.length ∧
    ((applyAdaptiveThreshold gray w h radius bias).getD i 0 = 0 ∨
      (applyAdaptiveThreshold gray w h radius bias).getD i 0 = 255) := by
  refine ⟨?_, ?_, ?_, ?_⟩
  · unfold applyGlobalThreshold
    exact List.length_map _ _
  · refine getD_pair _ (fun x hx => ?_) i
    simp only [applyGlobalThreshold, List.mem_map] at hx
    obtain ⟨a, _, rfl⟩ := hx
    exact ite_eq_or 255 0
  · unfold applyAdaptiveThreshold
    rw [List.length_map, List.length_range]
  · refine getD_pair _ (fun x hx => ?_) i
    simp only [applyAdaptiveThreshold, List.mem_map] at hx
    obtain ⟨a, _, rfl⟩ := hx
    by_cases hlt : a < w * h
    · rw [if_pos hlt]
      exact ite_eq_or 255 0
    · rw [if_neg hlt]
      left
      rfl

/-- C9: the sharpening kernel with centre `s` and arms `-(s-1)/4` sums to
exactly 1, and on a perfectly flat image every colour channel of every
pixel is unchanged: interior pixels because the convolution reproduces the
constant (rounding and clamping fix it), border pixels because they are
copied from the source. -/
theorem c9_sharpen_flat (strength : ℚ) (v : ℕ) (src : ℕ → ℕ → ℕ → ℕ) (w h : ℕ)
    (hv : v ≤ 255) (hflat : ∀ y x c, c < 3 → src y x c = v) :
    strength + 4 * (-((strength - 1) / 4)) = 1 ∧
    ∀ y x c, c < 3 → applyLaplacianSharpen strength src w h y x c = v := by
  refine ⟨by ring, fun y x c hc => ?_⟩
  unfold applyLaplacianSharpen
  split
  · rw [hflat y x c hc, hflat (y - 1) x c hc, hflat (y + 1) x c hc,
      hflat y (x - 1) c hc, hflat y (x + 1) c hc]
    have harith : strength * (v : ℚ) + -((strength - 1) / 4) * (v : ℚ) +
        -((strength - 1) / 4) * (v : ℚ) + -((strength - 1) / 4) * (v : ℚ) +
        -((strength - 1) / 4) * (v : ℚ) = (v : ℚ) := by ring
    rw [harith]
    have hround : jsRound (v : ℚ) = (v : ℤ) := by
      unfold jsRound
      rw [Int.floor_eq_iff]
      constructor
      · push_cast
        linarith
      · push_cast
        linarith
    rw [hround]
    have hclamp : clamp255 (v : ℤ) = (v : ℤ) := by
      unfold clamp255
      have h255 : (v : ℤ) ≤ 255 := by exact_mod_cast hv
      omega
    rw [hclamp]
    exact Int.toNat_natCast v
  · exact hflat y x c hc

/-- Witness for C9 at a concrete strength, flat value and image size. -/
theorem c9_sharpen_flat_witness :
    (7 : ℕ) ≤ 255 ∧
    applyLaplacianSharpen 5 (fun _ _ c => if c < 3 then 7 else 200) 4 4 1 1 0 = 7 :=
  ⟨by decide,
   (c9_sharpen_flat 5 7 (fun _ _ c => if c < 3 then 7 else 200) 4 4 (by decide)
      (fun _ _ c hc => by simp [hc])).2 1 1 0 (by decide)⟩

/-! ### Lemmas for the box blur -/

lemma clampIdx_eq_sub (n r x : ℕ) (hx : x < n) : clampIdx n ((x : ℤ) - r) = x - r := by
  unfold clampIdx
  omega

lemma clampIdx_eq_min (n x : ℕ) (hn : 0 < n) : clampIdx n (x : ℤ) = min (n - 1) x := by
  unfold clampIdx
  omega

lemma clampIdx_of_interior (n r x k : ℕ) (hr : r ≤ x) (hx : x + r < n) (hk : k ≤ 2 * r) :
    clampIdx n ((x : ℤ) - r + k) = x - r + k := by
  unfold clampIdx
  omega

lemma windowSum_slide (f : ℕ → ℕ) (n r x : ℕ) (hx : x < n) :
    windowSum f n r x + f (min (n - 1) (x + r + 1)) - f (x - r) =
      windowSum f n r ((x : ℤ) + 1) := by
  unfold windowSum
  rw [Finset.sum_range_succ' (fun k => f (clampIdx n ((x : ℤ) - r + k))) (2 * r)]
  rw [Finset.sum_range_succ (fun k => f (clampIdx n (((x : ℤ) + 1) - r + k))) (2 * r)]
  push_cast
  have h0 : clampIdx n ((x : ℤ) - r + 0) = x - r := by
    rw [add_zero]
    exact clampIdx_eq_sub n r x hx
  have htop : clampIdx n ((x : ℤ) + 1 - r + 2 * r) = min (n - 1) (x + r + 1) := by
    rw [show ((x : ℤ) + 1 - r + 2 * r) = ((x + r + 1 : ℕ) : ℤ) by push_cast; ring]
    exact clampIdx_eq_min n (x + r + 1) (by omega)
  have hsum : ∑ k ∈ Finset.range (2 * r), f (clampIdx n ((x : ℤ) - r + (k + 1))) =
      ∑ k ∈ Finset.range (2 * r), f (clampIdx n ((x : ℤ) + 1 - r + k)) := by
    refine Finset.sum_congr rfl fun k _ => ?_
    congr 1
    ring_nf
  rw [h0, htop, hsum]
  omega

lemma blurLineGo_spec (f : ℕ → ℕ) (n r : ℕ) :
    ∀ count x, x + count ≤ n →
      blurLineGo f n (2 * r + 1) r count x (windowSum f n r x) =
        (List.range count).map (fun j : ℕ => natRound (windowSum f n r ((x : ℤ) + (j : ℤ))) (2 * r + 1)) := by
  intro count
  induction count with
  | zero => intro x _; rfl
  | succ m ih =>
    intro x hx
    rw [blurLineGo, windowSum_slide f n r x (by omega)]
    have hrec := ih (x + 1) (by omega)
    have hcast : ((x + 1 : ℕ) : ℤ) = (x : ℤ) + 1 := by push_cast; ring
    rw [hcast] at hrec
    rw [hrec, List.range_succ_eq_map, List.map_cons, List.map_map]
    refine congrArg₂ List.cons ?_ ?_
    · norm_num
    · refine List.map_congr_left fun j _ => ?_
      simp only [Function.comp_apply]
      congr 2
      push_cast
      ring

lemma boxBlurLine_getD (f : ℕ → ℕ) (n r x : ℕ) (hx : x < n) :
    (boxBlurLine f n r).getD x 0 = natRound (windowSum f n r x) (2 * r + 1) := by
  unfold boxBlurLine
  have h0 : windowSum f n r 0 = windowSum f n r ((0 : ℕ) : ℤ) := by norm_num
  rw [h0, blurLineGo_spec f n r n 0 (by omega)]
  have hlen : x < ((List.range n).map (fun j : ℕ =>
      natRound (windowSum f n r (((0 : ℕ) : ℤ) + (j : ℤ))) (2 * r + 1))).length := by
    simpa using hx
  rw [List.getD_eq_getElem _ _ hlen]
  simp

lemma windowSum_interior (f : ℕ → ℕ) (n r x : ℕ) (hr : r ≤ x) (hx : x + r < n) :
    windowSum f n r x = ∑ k ∈ Finset.range (2 * r + 1), f (x - r + k) := by
  unfold windowSum
  refine Finset.sum_congr rfl fun k hk => ?_
  have hk2r : k ≤ 2 * r := by
    have := Finset.mem_range.mp hk
    omega
  congr 1
  unfold clampIdx
  omega

lemma natRound_err (s d : ℕ) (hd : 0 < d) : |(natRound s d : ℤ) * (2 * d) - 2 * s| ≤ d := by
  have hmod := Nat.div_add_mod (2 * s + d) (2 * d)
  have hlt : (2 * s + d) % (2 * d) < 2 * d := Nat.mod_lt _ (by omega)
  have hmodz : 2 * (d : ℤ) * (((2 * s + d) / (2 * d) : ℕ) : ℤ) + (((2 * s + d) % (2 * d) : ℕ) : ℤ)
      = 2 * s + d := by exact_mod_cast hmod
  have hltz : (((2 * s + d) % (2 * d) : ℕ) : ℤ) < 2 * d := by exact_mod_cast hlt
  have hnn : (0 : ℤ) ≤ (((2 * s + d) % (2 * d) : ℕ) : ℤ) := Int.ofNat_nonneg _
  unfold natRound
  rw [abs_le]
  constructor <;> linarith

/-- C7: the box-blur output buffer has the dimensions of the input, and at
every pixel at distance at least `r ≥ 1` from every edge the output equals
the true mean of the `(2r+1)×(2r+1)` neighbourhood within rounding: the
output times the window area differs from the exact window sum by at most
one window area (i.e. the output is within 1 intensity level of the exact
mean).  Samples outside the image never arise at interior pixels; at the
edges the passes clamp the sample coordinate (`clampIdx`, edge
replication). -/
theorem c7_box_blur_interior (gray : List ℕ) (w h r x y : ℕ)
    (hlen : gray.length = w * h) (hr : 1 ≤ r)
    (hx0 : r ≤ x) (hx1 : x + r < w) (hy0 : r ≤ y) (hy1 : y + r < h) :
    (applyBoxBlurBuf gray w h r).length = gray.length ∧
    |((applyBoxBlurBuf gray w h r).getD (y * w + x) 0 : ℤ) * ((2 * r + 1 : ℕ) : ℤ) ^ 2 -
        ∑ j ∈ Finset.range (2 * r + 1), ∑ i ∈ Finset.range (2 * r + 1),
          (gray.getD ((y - r + j) * w + (x - r + i)) 0 : ℤ)| ≤ ((2 * r + 1 : ℕ) : ℤ) ^ 2 := by
  have hw0 : 0 < w := by omega
  have hxw : x < w := by omega
  have hyh : y < h := by omega
  constructor
  · unfold applyBoxBlurBuf
    rw [List.length_map, List.length_range, hlen]
  set g : ℕ → ℕ → ℕ := fun a b => gray.getD (a * w + b) 0 with hg
  set D : ℕ := 2 * r + 1 with hD
  have hidx : y * w + x < w * h := by
    have h1 : y * w + x < (y + 1) * w := by
      rw [add_mul, one_mul]
      omega
    have h2 : (y + 1) * w ≤ h * w := Nat.mul_le_mul_right w (by omega)
    rw [mul_comm w h]
    omega
  have hdiv : (y * w + x) / w = y := by
    rw [add_comm, Nat.add_mul_div_right x y hw0, Nat.div_eq_of_lt hxw, zero_add]
  have hmod : (y * w + x) % w = x := by
    rw [add_comm, Nat.add_mul_mod_self_right, Nat.mod_eq_of_lt hxw]
  have hval : (applyBoxBlurBuf gray w h r).getD (y * w + x) 0 = applyBoxBlur g w h r y x := by
    unfold applyBoxBlurBuf
    have hlt : y * w + x < ((List.range (w * h)).map fun idx =>
        applyBoxBlur (fun a b => gray.getD (a * w + b) 0) w h r (idx / w) (idx % w)).length := by
      rw [List.length_map, List.length_range]
      exact hidx
    rw [List.getD_eq_getElem _ _ hlt]
    simp only [List.getElem_map, List.getElem_range]
    rw [hdiv, hmod, hg]
  rw [hval]
  -- peel the two passes down to rounded window sums
  set F : ℕ → ℕ := fun j => (boxBlurLine (fun i => g j i) w r).getD x 0 with hF
  have hout : applyBoxBlur g w h r y x = natRound (windowSum F h r y) D := by
    unfold applyBoxBlur
    rw [← hF, boxBlurLine_getD F h r y hyh, hD]
  have hvert : windowSum F h r y = ∑ j ∈ Finset.range D, F (y - r + j) := by
    rw [windowSum_interior F h r y hy0 hy1, hD]
  have hFval : ∀ j, F j = natRound (windowSum (fun i => g j i) w r x) D := by
    intro j
    have hFj : F j = (boxBlurLine (fun i => g j i) w r).getD x 0 := rfl
    rw [hFj, boxBlurLine_getD _ w r x hxw, hD]
  have hrow : ∀ j, windowSum (fun i => g j i) w r x =
      ∑ i ∈ Finset.range D, g j (x - r + i) := by
    intro j
    rw [windowSum_interior _ w r x hx0 hx1, hD]
  rw [hout, hvert]
  set T : ℕ → ℕ := fun j => ∑ i ∈ Finset.range D, g (y - r + j) (x - r + i) with hT
  have hsumF : ∑ j ∈ Finset.range D, F (y - r + j) =
      ∑ j ∈ Finset.range D, natRound (T j) D := by
    refine Finset.sum_congr rfl fun j _ => ?_
    rw [hFval (y - r + j), hrow (y - r + j), hT]
  rw [hsumF]
  have hS : ∑ j ∈ Finset.range (2 * r + 1), ∑ i ∈ Finset.range (2 * r + 1),
      (gray.getD ((y - r + j) * w + (x - r + i)) 0 : ℤ) =
      ∑ j ∈ Finset.range D, (T j : ℤ) := by
    rw [hD]
    refine Finset.sum_congr rfl fun j _ => ?_
    rw [hT]
    push_cast
    rfl
  rw [hS]
  -- the rounding-error bound
  have hD0 : 0 < D := by omega
  set A : ℕ := ∑ j ∈ Finset.range D, natRound (T j) D with hA
  set Q : ℕ := natRound A D with hQ
  have hout_err : |(Q : ℤ) * (2 * D) - 2 * A| ≤ D := natRound_err A D hD0
  have hrow_err : ∀ j ∈ Finset.range D, |(natRound (T j) D : ℤ) * (2 * D) - 2 * (T j)| ≤ D :=
    fun j _ => natRound_err (T j) D hD0
  have hsum_err : |∑ j ∈ Finset.range D, ((natRound (T j) D : ℤ) * (2 * D) - 2 * (T j))| ≤
      (D : ℤ) * D := by
    calc |∑ j ∈ Finset.range D, ((natRound (T j) D : ℤ) * (2 * D) - 2 * (T j))|
        ≤ ∑ j ∈ Finset.range D, |(natRound (T j) D : ℤ) * (2 * D) - 2 * (T j)| :=
          Finset.abs_sum_le_sum_abs _ _
      _ ≤ ∑ _j ∈ Finset.range D, (D : ℤ) := Finset.sum_le_sum hrow_err
      _ = (D : ℤ) * D := by
          rw [Finset.sum_const, Finset.card_range]
          push_cast
          ring
  have hsplit : ∑ j ∈ Finset.range D, ((natRound (T j) D : ℤ) * (2 * D) - 2 * (T j)) =
      2 * (D : ℤ) * A - 2 * ∑ j ∈ Finset.range D, (T j : ℤ) := by
    rw [Finset.sum_sub_distrib, ← Finset.sum_mul, ← Finset.mul_sum, hA]
    push_cast
    ring
  rw [hsplit] at hsum_err
  set S : ℤ := ∑ j ∈ Finset.range D, (T j : ℤ) with hSdef
  have key : |(Q : ℤ) * D ^ 2 - S| * 2 ≤ 2 * D ^ 2 := by
    have hexp : ((Q : ℤ) * D ^ 2 - S) * 2 =
        (D : ℤ) * ((Q : ℤ) * (2 * D) - 2 * A) + (2 * (D : ℤ) * A - 2 * S) := by ring
    calc |(Q : ℤ) * D ^ 2 - S| * 2 = |((Q : ℤ) * D ^ 2 - S) * 2| := by
          rw [abs_mul]
          norm_num
      _ = |(D : ℤ) * ((Q : ℤ) * (2 * D) - 2 * A) + (2 * (D : ℤ) * A - 2 * S)| := by
          rw [hexp]
      _ ≤ |(D : ℤ) * ((Q : ℤ) * (2 * D) - 2 * A)| + |2 * (D : ℤ) * A - 2 * S| := abs_add _ _
      _ = (D : ℤ) * |(Q : ℤ) * (2 * D) - 2 * A| + |2 * (D : ℤ) * A - 2 * S| := by
          rw [abs_mul]
          rw [abs_of_nonneg (by positivity : (0 : ℤ) ≤ (D : ℤ))]
      _ ≤ (D : ℤ) * D + (D : ℤ) * D := by
          have := mul_le_mul_of_nonneg_left hout_err (by positivity : (0 : ℤ) ≤ (D : ℤ))
          linarith [hsum_err]
      _ ≤ 2 * D ^ 2 := by nlinarith
  have hfin : |(Q : ℤ) * D ^ 2 - S| ≤ (D : ℤ) ^ 2 := by linarith
  have hcast : ((2 * r + 1 : ℕ) : ℤ) = (D : ℤ) := by rw [hD]
  rw [hcast]
  exact hfin

/-- Witness for C7 on a concrete 3×3 image with radius 1 at the centre pixel. -/
theorem c7_box_blur_interior_witness :
    ([1, 2, 3, 4, 5, 6, 7, 8, 9] : List ℕ).length = 3 * 3 ∧
    (applyBoxBlurBuf [1, 2, 3, 4, 5, 6, 7, 8, 9] 3 3 1).length =
      ([1, 2, 3, 4, 5, 6, 7, 8, 9] : List ℕ).length ∧
    |((applyBoxBlurBuf [1, 2, 3, 4, 5, 6, 7, 8, 9] 3 3 1).getD (1 * 3 + 1) 0 : ℤ) *
          ((2 * 1 + 1 : ℕ) : ℤ) ^ 2 -
        ∑ j ∈ Finset.range (2 * 1 + 1), ∑ i ∈ Finset.range (2 * 1 + 1),
          (([1, 2, 3, 4, 5, 6, 7, 8, 9] : List ℕ).getD ((1 - 1 + j) * 3 + (1 - 1 + i)) 0 : ℤ)| ≤
      ((2 * 1 + 1 : ℕ) : ℤ) ^ 2 :=
  ⟨by decide,
   (c7_box_blur_interior [1, 2, 3, 4, 5, 6, 7, 8, 9] 3 3 1 1 1 (by decide) (by decide)
      (by decide) (by decide) (by decide) (by decide)).1,
   (c7_box_blur_interior [1, 2, 3, 4, 5, 6, 7, 8, 9] 3 3 1 1 1 (by decide) (by decide)
      (by decide) (by decide) (by decide) (by decide)).2⟩

/-! ### Lemmas for the summed-area table and the adaptive binarizer -/

lemma toInt32_eq_self {z : ℤ} (h1 : -(2 ^ 31) ≤ z) (h2 : z < 2 ^ 31) : toInt32 z = z := by
  unfold toInt32
  omega

lemma toInt32_ext {a b : ℤ} (h : a % 2 ^ 32 = b % 2 ^ 32) : toInt32 a = toInt32 b := by
  unfold toInt32
  omega

lemma toInt32_mod (z : ℤ) : toInt32 z % 2 ^ 32 = z % 2 ^ 32 := by
  unfold toInt32
  omega

/-- Exclusive double prefix sum `∑_{j<y} ∑_{i<x} g j i`. -/
def prefixSum (g : ℕ → ℕ → ℤ) (y x : ℕ) : ℤ :=
  ∑ j ∈ Finset.range y, ∑ i ∈ Finset.range x, g j i

lemma prefixSum_rec (g : ℕ → ℕ → ℤ) (y x : ℕ) :
    prefixSum g (y + 1) (x + 1) =
      g y x + prefixSum g y (x + 1) + prefixSum g (y + 1) x - prefixSum g y x := by
  unfold prefixSum
  rw [Finset.sum_range_succ (fun j => ∑ i ∈ Finset.range (x + 1), g j i) y]
  rw [Finset.sum_range_succ (fun j => ∑ i ∈ Finset.range x, g j i) y]
  rw [Finset.sum_range_succ (fun i => g y i) x]
  ring

lemma satRowGo_length (gRow above : ℕ → ℤ) :
    ∀ count x left al, (satRowGo gRow above count x left al).length = count := by
  intro count
  induction count with
  | zero => intro x left al; rfl
  | succ m ih =>
    intro x left al
    rw [satRowGo, List.length_cons, ih]

lemma satRowGo_spec (gRow above : ℕ → ℤ) (B C : ℕ → ℤ) (xmax : ℕ)
    (habove : ∀ x2, x2 < xmax → above x2 = toInt32 (B (x2 + 1)))
    (hC : ∀ x, C (x + 1) = B (x + 1) + (C x - B x) + gRow x) :
    ∀ count x t, t < count → x + count ≤ xmax →
      (satRowGo gRow above count x (toInt32 (C x)) (toInt32 (B x))).getD t 0 =
        toInt32 (C (x + t + 1)) := by
  intro count
  induction count with
  | zero => intro x t ht _; omega
  | succ m ih =>
    intro x t ht hxm
    rw [satRowGo]
    have hv : toInt32 (gRow x + above x + toInt32 (C x) - toInt32 (B x)) =
        toInt32 (C (x + 1)) := by
      rw [habove x (by omega)]
      refine toInt32_ext ?_
      have h1 := toInt32_mod (B (x + 1))
      have h2 := toInt32_mod (C x)
      have h3 := toInt32_mod (B x)
      have hCx := hC x
      omega
    rcases t with _ | t2
    · rw [hv]
      rfl
    · rw [List.getD_cons_succ, hv, habove x (by omega)]
      have := ih (x + 1) t2 (by omega) (by omega)
      rw [this, show x + 1 + t2 + 1 = x + (t2 + 1) + 1 from by omega]

lemma satRows_length (g : ℕ → ℕ → ℤ) (w : ℕ) : ∀ h, (satRows g w h).length = h := by
  intro h
  induction h with
  | zero => rfl
  | succ m ih =>
    rw [satRows]
    rw [List.length_append, ih]
    rfl

lemma prefixSum_zero_right (g : ℕ → ℕ → ℤ) (y : ℕ) : prefixSum g y 0 = 0 := by
  unfold prefixSum
  simp

lemma prefixSum_zero_left (g : ℕ → ℕ → ℤ) (x : ℕ) : prefixSum g 0 x = 0 := by
  unfold prefixSum
  simp

lemma satAt_eq (g : ℕ → ℕ → ℤ) (w : ℕ) :
    ∀ h y x, y < h → x < w → satAt g w h y x = toInt32 (prefixSum g (y + 1) (x + 1)) := by
  intro h
  induction h with
  | zero => intro y x hy _; omega
  | succ m ih =>
    intro y x hy hx
    unfold satAt
    rw [satRows]
    rcases Nat.lt_or_ge y m with hym | hym
    · rw [List.getD_append _ _ _ _ (by rw [satRows_length]; exact hym)]
      have := ih y x hym hx
      unfold satAt at this
      exact this
    · have hym2 : y = m := by omega
      subst hym2
      rw [List.getD_append_right _ _ _ _ (by rw [satRows_length])]
      rw [satRows_length, Nat.sub_self, List.getD_cons_zero]
      have hB0 : (0 : ℤ) = toInt32 (prefixSum g y 0) := by
        rw [prefixSum_zero_right]
        rfl
      have hC0 : (0 : ℤ) = toInt32 (prefixSum g (y + 1) 0) := by
        rw [prefixSum_zero_right]
        rfl
      rw [show satRowGo (g y) (fun x2 => ((satRows g w y).getD (y - 1) []).getD x2 0) w 0 0 0 =
          satRowGo (g y) (fun x2 => ((satRows g w y).getD (y - 1) []).getD x2 0) w 0
            (toInt32 (prefixSum g (y + 1) 0)) (toInt32 (prefixSum g y 0)) from by
        rw [← hB0, ← hC0]]
      have hres := satRowGo_spec (g y)
        (fun x2 => ((satRows g w y).getD (y - 1) []).getD x2 0)
        (fun X => prefixSum g y X) (fun X => prefixSum g (y + 1) X) w
        ?_ ?_ w 0 x hx (by omega)
      · rw [hres, zero_add]
      · intro x2 hx2
        show ((satRows g w y).getD (y - 1) []).getD x2 0 = toInt32 (prefixSum g y (x2 + 1))
        rcases Nat.eq_zero_or_pos y with hy0 | hy0
        · subst hy0
          rw [prefixSum_zero_left]
          rfl
        · have := ih (y - 1) x2 (by omega) hx2
          unfold satAt at this
          rw [show y - 1 + 1 = y from by omega] at this
          exact this
      · intro x2
        show prefixSum g (y + 1) (x2 + 1) =
          prefixSum g y (x2 + 1) + (prefixSum g (y + 1) x2 - prefixSum g y x2) + g y x2
        have := prefixSum_rec g y x2
        linarith


lemma getD_le_255 (gray : List ℕ) (hb : ∀ p ∈ gray, p ≤ 255) (i : ℕ) :
    gray.getD i 0 ≤ 255 := by
  rcases lt_or_ge i gray.length with h | h
  · rw [List.getD_eq_getElem gray 0 h]
    exact hb _ (List.getElem_mem h)
  · rw [List.getD_eq_default gray 0 h]
    omega

lemma prefixSum_nonneg (gray : List ℕ) (w : ℕ) (Y X : ℕ) :
    0 ≤ prefixSum (fun y x => (gray.getD (y * w + x) 0 : ℤ)) Y X := by
  refine Finset.sum_nonneg fun j _ => Finset.sum_nonneg fun i _ => ?_
  exact Int.ofNat_nonneg _

lemma prefixSum_le (gray : List ℕ) (hb : ∀ p ∈ gray, p ≤ 255) (w : ℕ) (Y X : ℕ) :
    prefixSum (fun y x => (gray.getD (y * w + x) 0 : ℤ)) Y X ≤ 255 * (Y * X) := by
  calc prefixSum (fun y x => (gray.getD (y * w + x) 0 : ℤ)) Y X
      ≤ ∑ _j ∈ Finset.range Y, ∑ _i ∈ Finset.range X, (255 : ℤ) := by
        refine Finset.sum_le_sum fun j _ => Finset.sum_le_sum fun i _ => ?_
        show (gray.getD (j * w + i) 0 : ℤ) ≤ 255
        exact_mod_cast getD_le_255 gray hb (j * w + i)
    _ = 255 * (Y * X) := by
        simp [Finset.sum_const, Finset.card_range]
        ring

lemma list_sum_getD (l : List ℕ) : l.sum = ∑ t ∈ Finset.range l.length, l.getD t 0 := by
  induction l with
  | nil => simp
  | cons a tl ih =>
    rw [List.sum_cons, List.length_cons, Finset.sum_range_succ' (fun t => (a :: tl).getD t 0)]
    simp only [List.getD_cons_succ, List.getD_cons_zero]
    rw [ih]
    ring

lemma double_sum_rows (f : ℕ → ℕ) (w : ℕ) :
    ∀ h, ∑ j ∈ Finset.range h, ∑ i ∈ Finset.range w, f (j * w + i) =
      ∑ t ∈ Finset.range (h * w), f t := by
  intro h
  induction h with
  | zero => simp
  | succ m ih =>
    rw [Finset.sum_range_succ (fun j => ∑ i ∈ Finset.range w, f (j * w + i)) m, ih]
    rw [show (m + 1) * w = m * w + w from by ring, Finset.sum_range_add]

lemma prefixSum_total (gray : List ℕ) (w h : ℕ) (hlen : gray.length = w * h) :
    prefixSum (fun y x => (gray.getD (y * w + x) 0 : ℤ)) h w = (gray.sum : ℤ) := by
  unfold prefixSum
  have hnat : ∑ j ∈ Finset.range h, ∑ i ∈ Finset.range w, gray.getD (j * w + i) 0 = gray.sum := by
    rw [double_sum_rows (fun t => gray.getD t 0) w h, list_sum_getD gray, hlen]
    rw [mul_comm w h]
  rw [← hnat]
  push_cast
  rfl

/-- C8 (amended): when the whole-image intensity total fits in the 32-bit
summed-area table (`255 * w * h < 2^31`, true for sanely sized 8-bit
buffers), the adaptive binarizer with a radius covering the whole image at
every pixel and zero bias produces exactly the global binarizer output with
the whole-image mean as threshold. -/
theorem c8_adaptive_eq_global (gray : List ℕ) (w h radius : ℕ)
    (hw : 0 < w) (hh : 0 < h) (hlen : gray.length = w * h)
    (hb : ∀ p ∈ gray, p ≤ 255) (hrad : max w h ≤ radius)
    (hnov : 255 * (w * h) < 2 ^ 31) :
    applyAdaptiveThreshold gray w h radius 0 =
      applyGlobalThreshold gray ((gray.sum : ℚ) / ((w * h : ℕ) : ℚ)) := by
  have hwr : w ≤ radius := le_trans (le_max_left w h) hrad
  have hhr : h ≤ radius := le_trans (le_max_right w h) hrad
  apply List.ext_getElem
  · unfold applyAdaptiveThreshold applyGlobalThreshold
    rw [List.length_map, List.length_range, List.length_map]
  intro i h1 h2
  have hilen : i < gray.length := by
    unfold applyAdaptiveThreshold at h1
    rw [List.length_map, List.length_range] at h1
    exact h1
  have hiwh : i < w * h := by
    rw [← hlen]
    exact hilen
  have hy : i / w < h := by
    rcases Nat.lt_or_ge (i / w) h with hlt | hge
    · exact hlt
    · exfalso
      have : w * h ≤ w * (i / w) := Nat.mul_le_mul_left w hge
      have h2' : w * (i / w) ≤ i := Nat.mul_div_le i w
      omega
  have hx : i % w < w := Nat.mod_lt i hw
  unfold applyAdaptiveThreshold applyGlobalThreshold
  rw [List.getElem_map, List.getElem_map, List.getElem_range]
  rw [if_pos hiwh]
  dsimp only
  have e1 : i / w - radius = 0 := by
    have : i / w < h := hy
    omega
  have e2 : i % w - radius = 0 := by
    have : i % w < w := hx
    omega
  have e3 : min (h - 1) (i / w + radius) = h - 1 := by
    have hle : h - 1 ≤ i / w + radius :=
      le_trans (by omega) (Nat.le_add_left radius (i / w))
    exact min_eq_left hle
  have e4 : min (w - 1) (i % w + radius) = w - 1 := by
    have hle : w - 1 ≤ i % w + radius :=
      le_trans (by omega) (Nat.le_add_left radius (i % w))
    exact min_eq_left hle
  rw [e1, e2, e3, e4]
  rw [if_neg (lt_irrefl 0), if_neg (lt_irrefl 0),
    if_neg (by simp : ¬((0 : ℕ) < 0 ∧ (0 : ℕ) < 0))]
  have e5 : w - 1 - 0 + 1 = w := by omega
  have e6 : h - 1 - 0 + 1 = h := by omega
  rw [e5, e6]
  have hP0 : 0 ≤ prefixSum (fun y x => (gray.getD (y * w + x) 0 : ℤ)) h w :=
    prefixSum_nonneg gray w h w
  have hPle : prefixSum (fun y x => (gray.getD (y * w + x) 0 : ℤ)) h w ≤ 255 * (h * w) :=
    prefixSum_le gray hb w h w
  have hnovz : (255 * (w * h) : ℤ) < 2 ^ 31 := by exact_mod_cast hnov
  have hsat : satAt (fun y x => (gray.getD (y * w + x) 0 : ℤ)) w h (h - 1) (w - 1) =
      (gray.sum : ℤ) := by
    rw [satAt_eq _ w h (h - 1) (w - 1) (by omega) (by omega)]
    rw [show h - 1 + 1 = h from by omega, show w - 1 + 1 = w from by omega]
    rw [toInt32_eq_self (by linarith) (by nlinarith)]
    exact prefixSum_total gray w h hlen
  rw [hsat, sub_zero, sub_zero, add_zero, add_zero]
  rw [List.getD_eq_getElem gray 0 hilen, Int.cast_natCast]

/-- Witness for the amended C8 on a concrete 2×2 image. -/
theorem c8_adaptive_eq_global_witness :
    (∀ p ∈ ([10, 200, 30, 100] : List ℕ), p ≤ 255) ∧
    applyAdaptiveThreshold [10, 200, 30, 100] 2 2 2 0 =
      applyGlobalThreshold [10, 200, 30, 100]
        ((([10, 200, 30, 100] : List ℕ).sum : ℚ) / ((2 * 2 : ℕ) : ℚ)) :=
  ⟨by decide,
   c8_adaptive_eq_global [10, 200, 30, 100] 2 2 2 (by decide) (by decide) (by decide)
     (by decide) (by decide) (by decide)⟩

/-! ### C8 counterexample machinery: Int32 overflow of the summed-area table -/

lemma adaptive_getD_whole (gray : List ℕ) (w h radius : ℕ) (bias : ℚ)
    (hw : 0 < w) (hh : 0 < h) (hlen : gray.length = w * h) (hrad : max w h ≤ radius)
    (i : ℕ) (hilen : i < gray.length) :
    (applyAdaptiveThreshold gray w h radius bias).getD i 0 =
      if ((satAt (fun y x => (gray.getD (y * w + x) 0 : ℤ)) w h (h - 1) (w - 1) : ℚ) /
          ((w * h : ℕ) : ℚ) + bias ≤ (gray.getD i 0 : ℚ)) then 255 else 0 := by
  have hwr : w ≤ radius := le_trans (le_max_left w h) hrad
  have hhr : h ≤ radius := le_trans (le_max_right w h) hrad
  have hiwh : i < w * h := by
    rw [← hlen]
    exact hilen
  have hy : i / w < h := by
    rcases Nat.lt_or_ge (i / w) h with hlt | hge
    · exact hlt
    · exfalso
      have hge2 : w * h ≤ w * (i / w) := Nat.mul_le_mul_left w hge
      have h2' : w * (i / w) ≤ i := Nat.mul_div_le i w
      omega
  have hx : i % w < w := Nat.mod_lt i hw
  have hlen2 : i < (applyAdaptiveThreshold gray w h radius bias).length := by
    unfold applyAdaptiveThreshold
    rw [List.length_map, List.length_range]
    exact hilen
  rw [List.getD_eq_getElem _ _ hlen2]
  unfold applyAdaptiveThreshold
  rw [List.getElem_map, List.getElem_range]
  rw [if_pos hiwh]
  dsimp only
  have e1 : i / w - radius = 0 := by
    have hy2 : i / w < h := hy
    omega
  have e2 : i % w - radius = 0 := by
    have hx2 : i % w < w := hx
    omega
  have e3 : min (h - 1) (i / w + radius) = h - 1 := by
    have hle : h - 1 ≤ i / w + radius :=
      le_trans (by omega) (Nat.le_add_left radius (i / w))
    exact min_eq_left hle
  have e4 : min (w - 1) (i % w + radius) = w - 1 := by
    have hle : w - 1 ≤ i % w + radius :=
      le_trans (by omega) (Nat.le_add_left radius (i % w))
    exact min_eq_left hle
  rw [e1, e2, e3, e4]
  rw [if_neg (lt_irrefl 0), if_neg (lt_irrefl 0),
    if_neg (by simp : ¬((0 : ℕ) < 0 ∧ (0 : ℕ) < 0))]
  have e5 : w - 1 - 0 + 1 = w := by omega
  have e6 : h - 1 - 0 + 1 = h := by omega
  rw [e5, e6, sub_zero, sub_zero, add_zero]

/-- The overflowing image: one black pixel then 8421603 white pixels
(2902 × 2902, total intensity 2147508765 ≥ 2^31). -/
def cexGray : List ℕ := 0 :: List.replicate (2902 * 2902 - 1) 255

lemma cexGray_length : cexGray.length = 2902 * 2902 := by
  unfold cexGray
  rw [List.length_cons, List.length_replicate]

lemma cexGray_getD_pos (t : ℕ) (h1 : 1 ≤ t) (h2 : t < 2902 * 2902) :
    cexGray.getD t 0 = 255 := by
  unfold cexGray
  rcases t with _ | s
  · omega
  · rw [List.getD_cons_succ]
    have hs : s < 2902 * 2902 - 1 := by omega
    rw [List.getD_eq_getElem _ _ (by rw [List.length_replicate]; exact hs)]
    exact List.getElem_replicate 255 _

lemma cexGray_g0 (j i : ℕ) (hj : j < 2902) (hi : i < 2902) :
    (cexGray.getD (j * 2902 + i) 0 : ℤ) = if j = 0 ∧ i = 0 then 0 else 255 := by
  by_cases hji : j = 0 ∧ i = 0
  · rw [if_pos hji, hji.1, hji.2]
    rfl
  · rw [if_neg hji]
    have h1 : 1 ≤ j * 2902 + i := by
      rcases Nat.eq_zero_or_pos j with hj0 | hj0
      · subst hj0
        have hi1 : i ≠ 0 := fun hi0 => hji ⟨rfl, hi0⟩
        omega
      · have : 2902 ≤ j * 2902 := by
          calc 2902 = 1 * 2902 := by ring
          _ ≤ j * 2902 := Nat.mul_le_mul_right 2902 hj0
        omega
    have h2 : j * 2902 + i < 2902 * 2902 := by
      have hj2 : j ≤ 2901 := by omega
      have : j * 2902 ≤ 2901 * 2902 := Nat.mul_le_mul_right 2902 hj2
      omega
    rw [cexGray_getD_pos _ h1 h2]
    rfl

lemma prefixSum_cex (Y X : ℕ) (hY1 : 1 ≤ Y) (hY : Y ≤ 2902) (hX1 : 1 ≤ X) (hX : X ≤ 2902) :
    prefixSum (fun y x => (cexGray.getD (y * 2902 + x) 0 : ℤ)) Y X = 255 * (Y * X) - 255 := by
  unfold prefixSum
  have hrw : ∀ j ∈ Finset.range Y, ∀ i ∈ Finset.range X,
      (cexGray.getD (j * 2902 + i) 0 : ℤ) = 255 - (if j = 0 ∧ i = 0 then 255 else 0) := by
    intro j hj i hi
    rw [cexGray_g0 j i (by have := Finset.mem_range.mp hj; omega)
      (by have := Finset.mem_range.mp hi; omega)]
    by_cases hji : j = 0 ∧ i = 0
    · rw [if_pos hji, if_pos hji]
      ring
    · rw [if_neg hji, if_neg hji]
      ring
  have hstep : ∑ j ∈ Finset.range Y, ∑ i ∈ Finset.range X,
      (cexGray.getD (j * 2902 + i) 0 : ℤ) =
      ∑ j ∈ Finset.range Y, ∑ i ∈ Finset.range X,
        ((255 : ℤ) - (if j = 0 ∧ i = 0 then 255 else 0)) := by
    refine Finset.sum_congr rfl fun j hj => Finset.sum_congr rfl fun i hi => ?_
    exact hrw j hj i hi
  rw [hstep]
  have hind : ∑ j ∈ Finset.range Y, ∑ i ∈ Finset.range X,
      (if j = 0 ∧ i = 0 then (255 : ℤ) else 0) = 255 := by
    have hinner : ∀ j, ∑ i ∈ Finset.range X, (if j = 0 ∧ i = 0 then (255 : ℤ) else 0) =
        if j = 0 then 255 else 0 := by
      intro j
      by_cases hj0 : j = 0
      · subst hj0
        rw [if_pos rfl]
        have : ∀ i, (if (0 : ℕ) = 0 ∧ i = 0 then (255 : ℤ) else 0) =
            if i = 0 then (255 : ℤ) else 0 := by
          intro i
          by_cases hi0 : i = 0 <;> simp [hi0]
        rw [Finset.sum_congr rfl fun i _ => this i]
        rw [Finset.sum_ite_eq' (Finset.range X) 0 (fun _ => (255 : ℤ))]
        rw [if_pos (Finset.mem_range.mpr (by omega))]
      · rw [if_neg hj0]
        refine Finset.sum_eq_zero fun i _ => ?_
        rw [if_neg (by tauto)]
    rw [Finset.sum_congr rfl fun j _ => hinner j]
    rw [Finset.sum_ite_eq' (Finset.range Y) 0 (fun _ => (255 : ℤ))]
    rw [if_pos (Finset.mem_range.mpr (by omega))]
  rw [Finset.sum_congr rfl fun j _ => Finset.sum_sub_distrib]
  rw [Finset.sum_sub_distrib, hind]
  rw [Finset.sum_congr rfl fun j _ => Finset.sum_const (255 : ℤ)]
  rw [Finset.sum_const, Finset.card_range, Finset.card_range]
  push_cast [nsmul_eq_mul]
  ring

/-- C8 counterexample: on a 2902×2902 8-bit image whose total intensity
2147508765 exceeds 2^31, the `Int32Array` summed-area table wraps around,
the local mean of the whole-image window becomes negative, and the adaptive
binarizer turns the black pixel white while the global binarizer with the
whole-image mean as threshold keeps it black — the two outputs differ. -/
theorem c8_counterexample :
    applyAdaptiveThreshold cexGray 2902 2902 2902 0 ≠
      applyGlobalThreshold cexGray ((cexGray.sum : ℚ) / ((2902 * 2902 : ℕ) : ℚ)) := by
  intro heq
  have hA : (applyAdaptiveThreshold cexGray 2902 2902 2902 0).getD 0 0 = 255 := by
    rw [adaptive_getD_whole cexGray 2902 2902 2902 0 (by norm_num) (by norm_num)
      cexGray_length (by norm_num) 0 (by rw [cexGray_length]; norm_num)]
    rw [show (2902 - 1 : ℕ) = 2901 from rfl]
    rw [satAt_eq _ 2902 2902 2901 2901 (by norm_num) (by norm_num)]
    rw [show (2901 + 1 : ℕ) = 2902 from rfl]
    rw [prefixSum_cex 2902 2902 (by norm_num) (by norm_num) (by norm_num) (by norm_num)]
    rw [show cexGray.getD 0 0 = 0 from rfl]
    have hti : toInt32 (255 * ((2902 : ℕ) * (2902 : ℕ)) - 255) = -2147458531 := by
      unfold toInt32
      norm_num
    rw [hti]
    norm_num
  have hsum : cexGray.sum = 2147508765 := by
    have hP2 := prefixSum_total cexGray 2902 2902 cexGray_length
    have hP1 := prefixSum_cex 2902 2902 (by norm_num) (by norm_num) (by norm_num) (by norm_num)
    have hZ : (cexGray.sum : ℤ) = 2147508765 := by
      rw [← hP2, hP1]
      norm_num
    exact_mod_cast hZ
  have hG : (applyGlobalThreshold cexGray
      ((cexGray.sum : ℚ) / ((2902 * 2902 : ℕ) : ℚ))).getD 0 0 = 0 := by
    rw [hsum]
    unfold applyGlobalThreshold
    unfold cexGray
    rw [List.map_cons, List.getD_cons_zero]
    rw [if_neg]
    push_cast
    norm_num
  rw [heq, hG] at hA
  exact absurd hA (by norm_num)

/-! ### C4: engine lemmas for the duration parser -/

/-- A decimal digit is not a JavaScript whitespace character. -/
lemma digit_not_jsSpace (c : Char) (h : c.isDigit = true) : isJsSpace c = false := by
  have hn : 48 ≤ c.toNat ∧ c.toNat ≤ 57 := by
    simp [Char.isDigit, Char.le_def] at h
    exact h
  simp only [isJsSpace, Bool.or_eq_false_iff, Bool.and_eq_false_iff,
    decide_eq_false_iff_not]
  and_intros <;>
    first
    | (intro h'; subst h'; exact absurd hn (by decide))
    | omega

/-- `takeWhile` keeps a list all of whose elements satisfy the predicate. -/
lemma takeWhile_all {p : Char → Bool} :
    ∀ l : List Char, (∀ c ∈ l, p c = true) → l.takeWhile p = l
  | [], _ => rfl
  | c :: t, h => by
    rw [List.takeWhile_cons, if_pos (h c (by simp)),
      takeWhile_all t (fun d hd => h d (by simp [hd]))]

/-- `parseInt` on a nonempty all-digit string returns its decimal value. -/
lemma parseIntJS_digits (xs : List Char) (hx : xs ≠ [])
    (hd : ∀ c ∈ xs, c.isDigit = true) : parseIntJS xs = some (digitsVal xs) := by
  unfold parseIntJS
  rw [takeWhile_all xs hd]
  simp [List.isEmpty_iff, hx]

lemma leadCount_nil (p : Char → Bool) : leadCount p [] = 0 := rfl

lemma leadCount_cons_true {p : Char → Bool} {c : Char} (s : List Char) (h : p c = true) :
    leadCount p (c :: s) = leadCount p s + 1 := by
  simp [leadCount, List.takeWhile_cons, h]

lemma leadCount_cons_false {p : Char → Bool} {c : Char} (s : List Char) (h : p c = false) :
    leadCount p (c :: s) = 0 := by
  simp [leadCount, List.takeWhile_cons, h]

/-- `leadCount` over an all-satisfying prefix. -/
lemma leadCount_append_all {p : Char → Bool} :
    ∀ xs rest : List Char, (∀ c ∈ xs, p c = true) →
      leadCount p (xs ++ rest) = xs.length + leadCount p rest
  | [], rest, _ => by simp
  | c :: t, rest, h => by
    rw [List.cons_append, leadCount_cons_true _ (h c (by simp)),
      leadCount_append_all t rest (fun d hd => h d (by simp [hd])), List.length_cons]
    omega

/-- The head run of digits in a digit-list followed by a non-digit suffix. -/
lemma leadCount_digits (xs rest : List Char) (hd : ∀ c ∈ xs, c.isDigit = true)
    (hrest : leadCount Char.isDigit rest = 0) :
    leadCount Char.isDigit (xs ++ rest) = xs.length := by
  rw [leadCount_append_all xs rest hd, hrest]
  omega

/-- A digit-list starts no whitespace run. -/
lemma leadCount_space_digits (ys rest : List Char) (hy : ys ≠ [])
    (hd : ∀ c ∈ ys, c.isDigit = true) :
    leadCount isJsSpace (ys ++ rest) = 0 := by
  cases ys with
  | nil => exact absurd rfl hy
  | cons c t =>
    rw [List.cons_append]
    exact leadCount_cons_false _ (digit_not_jsSpace c (hd c (by simp)))

/-! Single-step unfolding equations of the matcher. -/

lemma matRE_cat (a b : RE) (s : List Char) (caps : Caps)
    (k : List Char → Caps → Option Caps) :
    matRE (.cat a b) s caps k = matRE a s caps (fun s2 c2 => matRE b s2 c2 k) := rfl

lemma matRE_group (n : ℕ) (a : RE) (s : List Char) (caps : Caps)
    (k : List Char → Caps → Option Caps) :
    matRE (.group n a) s caps k =
      matRE a s caps (fun s2 caps2 => k s2 (setCap caps2 n (s.take (s.length - s2.length)))) := rfl

lemma matRE_cls_cons (p : Char → Bool) (c : Char) (s : List Char) (caps : Caps)
    (k : List Char → Caps → Option Caps) :
    matRE (.cls p) (c :: s) caps k = if p c then k s caps else none := rfl

lemma matRE_eps (s : List Char) (caps : Caps) (k : List Char → Caps → Option Caps) :
    matRE .eps s caps k = k s caps := rfl

/-- A failed optional falls through to the continuation. -/
lemma matRE_opt_fail {a : RE} {s : List Char} {caps : Caps}
    {k : List Char → Caps → Option Caps} (h : matRE a s caps k = none) :
    matRE (.opt a) s caps k = k s caps := by
  show (matRE a s caps k <|> k s caps) = k s caps
  rw [h]
  rfl

/-- A successful optional keeps its (greedy) first success. -/
lemma matRE_opt_hit {a : RE} {s : List Char} {caps : Caps}
    {k : List Char → Caps → Option Caps} {v : Caps} (h : matRE a s caps k = some v) :
    matRE (.opt a) s caps k = some v := by
  show (matRE a s caps k <|> k s caps) = some v
  rw [h]
  rfl

/-- A star over a class with no matching head run falls through. -/
lemma matRE_star_zero {p : Char → Bool} {s : List Char} {caps : Caps}
    {k : List Char → Caps → Option Caps} (h : leadCount p s = 0) :
    matRE (.starCls p) s caps k = k s caps := by
  show tryTake s caps k (leadCount p s) = k s caps
  rw [h]
  rfl

/-- The greedy star succeeds on its longest candidate when the continuation
accepts it. -/
lemma matRE_star_first {p : Char → Bool} {s : List Char} {caps : Caps}
    {k : List Char → Caps → Option Caps} {n : ℕ} {v : Caps} (h : leadCount p s = n)
    (hk : k (s.drop n) caps = some v) :
    matRE (.starCls p) s caps k = some v := by
  show tryTake s caps k (leadCount p s) = some v
  rw [h]
  cases n with
  | zero => rw [List.drop_zero] at hk; exact hk
  | succ m =>
    show (k (s.drop (m + 1)) caps <|> tryTake s caps k m) = some v
    rw [hk]
    rfl

/-- The greedy plus succeeds on its longest candidate when the continuation
accepts it. -/
lemma matRE_plus_first {p : Char → Bool} {s : List Char} {caps : Caps}
    {k : List Char → Caps → Option Caps} {n : ℕ} {v : Caps} (h : leadCount p s = n + 1)
    (hk : k (s.drop (n + 1)) caps = some v) :
    matRE (.plusCls p) s caps k = some v := by
  show tryTakeMin1 s caps k (leadCount p s) = some v
  rw [h]
  show (k (s.drop (n + 1)) caps <|> tryTakeMin1 s caps k n) = some v
  rw [hk]
  rfl

/-- A successful match at position 0 is the leftmost search result. -/
lemma searchRE_head {r : RE} {c : Char} {s : List Char} {v : Caps}
    (h : matchTop r (c :: s) = some v) : searchRE r (c :: s) = some v := by
  show ((if true then matchTop r (c :: s) else none) <|> searchAux r (fun _ => true) (some c) s)
      = some v
  rw [if_pos rfl, h]
  rfl

/-- The hour-suffix alternation `(?:r|rs|our|ours)` fails on a space. -/
lemma hourSuf_space (t : List Char) (caps : Caps) (k : List Char → Caps → Option Caps) :
    matRE hourSufRE (' ' :: t) caps k = none := rfl

/-- A case-insensitive literal character consumes itself. -/
lemma matRE_chrCI_hit (c : Char) (s : List Char) (caps : Caps)
    (k : List Char → Caps → Option Caps) :
    matRE (chrCI c) (c :: s) caps k = k s caps := by
  rw [show chrCI c = RE.cls (fun x => decide (x.toLower = c.toLower)) from rfl,
    matRE_cls_cons]
  simp

/-- Match of the combined-duration pattern on `"<xs>h <ys>m"`: the whole
input is consumed, group 1 captures the hours digits and group 2 the
minutes digits. -/
lemma durFull_hit1 (xs ys : List Char) (hx : xs ≠ []) (hy : ys ≠ [])
    (hdx : ∀ c ∈ xs, c.isDigit = true) (hdy : ∀ c ∈ ys, c.isDigit = true) :
    searchRE durFullRE (xs ++ 'h' :: ' ' :: (ys ++ ['m'])) =
      some (setCap (setCap (setCap emptyCaps 1 xs) 2 ys) 0
        (xs ++ 'h' :: ' ' :: (ys ++ ['m']))) := by
  cases xs with
  | nil => exact absurd rfl hx
  | cons x xs' =>
  cases ys with
  | nil => exact absurd rfl hy
  | cons y ys' =>
  rw [List.cons_append]
  apply searchRE_head
  unfold matchTop
  rw [show durFullRE = RE.cat (.group 1 (.plusCls Char.isDigit))
    (RE.cat (.starCls isJsSpace) (RE.cat (chrCI 'h') (RE.cat (.opt hourSufRE)
      (RE.cat (.starCls isJsSpace) (RE.cat (.group 2 (.plusCls Char.isDigit))
        (RE.cat (.starCls isJsSpace) (RE.cat (chrCI 'm')
          (RE.cat (.opt (.alt (litCI "in") (litCI "ins"))) .eps)))))))) from rfl]
  rw [matRE_cat, matRE_group]
  have hlead1 : leadCount Char.isDigit (x :: (xs' ++ ('h' :: ' ' :: ((y :: ys') ++ ['m'])))) =
      xs'.length + 1 := by
    have h0 := leadCount_digits (x :: xs') ('h' :: ' ' :: ((y :: ys') ++ ['m'])) hdx
      (leadCount_cons_false _ (by decide))
    simpa using h0
  refine matRE_plus_first hlead1 ?_
  beta_reduce
  rw [show (x :: (xs' ++ ('h' :: ' ' :: ((y :: ys') ++ ['m'])))).drop (xs'.length + 1) =
      'h' :: ' ' :: ((y :: ys') ++ ['m']) from by
    rw [← List.cons_append]
    exact List.drop_left' (by simp)]
  rw [show (x :: (xs' ++ ('h' :: ' ' :: ((y :: ys') ++ ['m'])))).take
      ((x :: (xs' ++ ('h' :: ' ' :: ((y :: ys') ++ ['m'])))).length -
        ('h' :: ' ' :: ((y :: ys') ++ ['m'])).length) = x :: xs' from by
    rw [← List.cons_append]
    rw [show ((x :: xs') ++ ('h' :: ' ' :: ((y :: ys') ++ ['m']))).length -
        ('h' :: ' ' :: ((y :: ys') ++ ['m'])).length = (x :: xs').length from by
      simp
      omega]
    exact List.take_left _ _]
  rw [matRE_cat, matRE_star_zero (leadCount_cons_false _ (by decide))]
  rw [matRE_cat, matRE_chrCI_hit, matRE_cat, matRE_opt_fail (hourSuf_space _ _ _)]
  have hsp : leadCount isJsSpace (' ' :: ((y :: ys') ++ ['m'])) = 1 := by
    rw [leadCount_cons_true _ (by decide), leadCount_space_digits (y :: ys') ['m'] (by simp) hdy]
  rw [matRE_cat]
  refine matRE_star_first hsp ?_
  beta_reduce
  rw [show (' ' :: ((y :: ys') ++ ['m'])).drop 1 = (y :: ys') ++ ['m'] from rfl]
  rw [matRE_cat, matRE_group]
  have hlead2 : leadCount Char.isDigit (y :: (ys' ++ ['m'])) = ys'.length + 1 := by
    have h0 := leadCount_digits (y :: ys') ['m'] hdy (leadCount_cons_false _ (by decide))
    simpa using h0
  rw [List.cons_append]
  refine matRE_plus_first hlead2 ?_
  beta_reduce
  rw [show (y :: (ys' ++ ['m'])).drop (ys'.length + 1) = ['m'] from by
    rw [← List.cons_append]
    exact List.drop_left' (by simp)]
  rw [show (y :: (ys' ++ ['m'])).take ((y :: (ys' ++ ['m'])).length - ['m'].length) =
      y :: ys' from by
    rw [← List.cons_append]
    rw [show ((y :: ys') ++ ['m']).length - ['m'].length = (y :: ys').length from by simp]
    exact List.take_left _ _]
  rw [show ∀ caps2 : Caps, ∀ k2 : List Char → Caps → Option Caps,
      matRE (RE.cat (.starCls isJsSpace) (RE.cat (chrCI 'm')
        (RE.cat (.opt (.alt (litCI "in") (litCI "ins"))) .eps))) ['m'] caps2 k2 = k2 [] caps2
    from fun _ _ => rfl]
  simp only [List.length_nil, Nat.sub_zero]
  rw [List.take_of_length_le (by simp)]

/-- The hour-suffix alternation takes its first branch `r` when the
continuation accepts the rest. -/
lemma hourSuf_r {s : List Char} {caps : Caps} {k : List Char → Caps → Option Caps}
    {v : Caps} (h : k s caps = some v) :
    matRE hourSufRE ('r' :: s) caps k = some v := by
  have e : matRE hourSufRE ('r' :: s) caps k =
      (k s caps <|> matRE (.alt (litCI "rs") (.alt (litCI "our") (litCI "ours")))
        ('r' :: s) caps k) := rfl
  rw [e, h]
  rfl

/-- Evaluation of the trailing `\s*m(?:in|ins)?` segment on the concrete
suffix `" min"`. -/
lemma tailMin_eval {caps2 : Caps} {k2 : List Char → Caps → Option Caps} {v : Caps}
    (h : k2 [] caps2 = some v) :
    matRE (RE.cat (.starCls isJsSpace) (RE.cat (chrCI 'm')
      (RE.cat (.opt (.alt (litCI "in") (litCI "ins"))) .eps)))
      (' ' :: 'm' :: 'i' :: 'n' :: []) caps2 k2 = some v := by
  have e : matRE (RE.cat (.starCls isJsSpace) (RE.cat (chrCI 'm')
      (RE.cat (.opt (.alt (litCI "in") (litCI "ins"))) .eps)))
      (' ' :: 'm' :: 'i' :: 'n' :: []) caps2 k2 =
      (((k2 [] caps2 <|> none) <|> k2 ('i' :: 'n' :: []) caps2) <|> none) := rfl
  rw [e, h]
  rfl

/-- Match of the combined-duration pattern on `"<xs> hr <ys> min"`. -/
lemma durFull_hit2 (xs ys : List Char) (hx : xs ≠ []) (hy : ys ≠ [])
    (hdx : ∀ c ∈ xs, c.isDigit = true) (hdy : ∀ c ∈ ys, c.isDigit = true) :
    searchRE durFullRE (xs ++ ' ' :: 'h' :: 'r' :: ' ' :: (ys ++ (' ' :: 'm' :: 'i' :: 'n' :: []))) =
      some (setCap (setCap (setCap emptyCaps 1 xs) 2 ys) 0
        (xs ++ ' ' :: 'h' :: 'r' :: ' ' :: (ys ++ (' ' :: 'm' :: 'i' :: 'n' :: [])))) := by
  cases xs with
  | nil => exact absurd rfl hx
  | cons x xs' =>
  cases ys with
  | nil => exact absurd rfl hy
  | cons y ys' =>
  rw [List.cons_append]
  apply searchRE_head
  unfold matchTop
  rw [show durFullRE = RE.cat (.group 1 (.plusCls Char.isDigit))
    (RE.cat (.starCls isJsSpace) (RE.cat (chrCI 'h') (RE.cat (.opt hourSufRE)
      (RE.cat (.starCls isJsSpace) (RE.cat (.group 2 (.plusCls Char.isDigit))
        (RE.cat (.starCls isJsSpace) (RE.cat (chrCI 'm')
          (RE.cat (.opt (.alt (litCI "in") (litCI "ins"))) .eps)))))))) from rfl]
  rw [matRE_cat, matRE_group]
  have hlead1 : leadCount Char.isDigit
      (x :: (xs' ++ (' ' :: 'h' :: 'r' :: ' ' :: ((y :: ys') ++ (' ' :: 'm' :: 'i' :: 'n' :: []))))) =
      xs'.length + 1 := by
    have h0 := leadCount_digits (x :: xs')
      (' ' :: 'h' :: 'r' :: ' ' :: ((y :: ys') ++ (' ' :: 'm' :: 'i' :: 'n' :: []))) hdx
      (leadCount_cons_false _ (by decide))
    simpa using h0
  refine matRE_plus_first hlead1 ?_
  beta_reduce
  rw [show (x :: (xs' ++ (' ' :: 'h' :: 'r' :: ' ' :: ((y :: ys') ++ (' ' :: 'm' :: 'i' :: 'n' :: []))))).drop
      (xs'.length + 1) = ' ' :: 'h' :: 'r' :: ' ' :: ((y :: ys') ++ (' ' :: 'm' :: 'i' :: 'n' :: []))
    from by
    rw [← List.cons_append]
    exact List.drop_left' (by simp)]
  rw [show (x :: (xs' ++ (' ' :: 'h' :: 'r' :: ' ' :: ((y :: ys') ++ (' ' :: 'm' :: 'i' :: 'n' :: []))))).take
      ((x :: (xs' ++ (' ' :: 'h' :: 'r' :: ' ' :: ((y :: ys') ++ (' ' :: 'm' :: 'i' :: 'n' :: []))))).length -
        (' ' :: 'h' :: 'r' :: ' ' :: ((y :: ys') ++ (' ' :: 'm' :: 'i' :: 'n' :: []))).length) = x :: xs'
    from by
    rw [← List.cons_append]
    rw [show ((x :: xs') ++ (' ' :: 'h' :: 'r' :: ' ' :: ((y :: ys') ++ (' ' :: 'm' :: 'i' :: 'n' :: [])))).length -
        (' ' :: 'h' :: 'r' :: ' ' :: ((y :: ys') ++ (' ' :: 'm' :: 'i' :: 'n' :: []))).length = (x :: xs').length
      from by
      simp
      omega]
    exact List.take_left _ _]
  rw [matRE_cat]
  refine matRE_star_first (by rw [leadCount_cons_true _ (by decide),
    leadCount_cons_false _ (by decide)]) ?_
  beta_reduce
  rw [show (' ' :: 'h' :: 'r' :: ' ' :: ((y :: ys') ++ (' ' :: 'm' :: 'i' :: 'n' :: []))).drop 1 =
      'h' :: 'r' :: ' ' :: ((y :: ys') ++ (' ' :: 'm' :: 'i' :: 'n' :: [])) from rfl]
  rw [matRE_cat, matRE_chrCI_hit, matRE_cat]
  refine matRE_opt_hit (hourSuf_r ?_)
  beta_reduce
  have hsp : leadCount isJsSpace (' ' :: ((y :: ys') ++ (' ' :: 'm' :: 'i' :: 'n' :: []))) = 1 := by
    rw [leadCount_cons_true _ (by decide),
      leadCount_space_digits (y :: ys') (' ' :: 'm' :: 'i' :: 'n' :: []) (by simp) hdy]
  rw [matRE_cat]
  refine matRE_star_first hsp ?_
  beta_reduce
  rw [show (' ' :: ((y :: ys') ++ (' ' :: 'm' :: 'i' :: 'n' :: []))).drop 1 =
      (y :: ys') ++ (' ' :: 'm' :: 'i' :: 'n' :: []) from rfl]
  rw [matRE_cat, matRE_group]
  have hlead2 : leadCount Char.isDigit (y :: (ys' ++ (' ' :: 'm' :: 'i' :: 'n' :: []))) =
      ys'.length + 1 := by
    have h0 := leadCount_digits (y :: ys') (' ' :: 'm' :: 'i' :: 'n' :: []) hdy
      (leadCount_cons_false _ (by decide))
    simpa using h0
  rw [List.cons_append]
  refine matRE_plus_first hlead2 ?_
  beta_reduce
  rw [show (y :: (ys' ++ (' ' :: 'm' :: 'i' :: 'n' :: []))).drop (ys'.length + 1) =
      ' ' :: 'm' :: 'i' :: 'n' :: [] from by
    rw [← List.cons_append]
    exact List.drop_left' (by simp)]
  rw [show (y :: (ys' ++ (' ' :: 'm' :: 'i' :: 'n' :: []))).take
      ((y :: (ys' ++ (' ' :: 'm' :: 'i' :: 'n' :: []))).length -
        (' ' :: 'm' :: 'i' :: 'n' :: []).length) = y :: ys' from by
    rw [← List.cons_append]
    rw [show ((y :: ys') ++ (' ' :: 'm' :: 'i' :: 'n' :: [])).length -
        (' ' :: 'm' :: 'i' :: 'n' :: []).length = (y :: ys').length from by simp]
    exact List.take_left _ _]
  refine tailMin_eval ?_
  simp only [List.length_nil, Nat.sub_zero]
  rw [List.take_of_length_le (by simp)]

/-- `parseDuration` on a general `"<hours>h <minutes>m"` input. -/
lemma parseDuration_hm (xs ys : List Char) (hx : xs ≠ []) (hy : ys ≠ [])
    (hdx : ∀ c ∈ xs, c.isDigit = true) (hdy : ∀ c ∈ ys, c.isDigit = true) :
    parseDuration (xs ++ 'h' :: ' ' :: (ys ++ ['m'])) =
      some (digitsVal xs * 60 + digitsVal ys) := by
  unfold parseDuration
  rw [durFull_hit1 xs ys hx hy hdx hdy]
  show (parseIntJS (((setCap (setCap (setCap emptyCaps 1 xs) 2 ys) 0
      (xs ++ 'h' :: ' ' :: (ys ++ ['m']))) 1).getD [])).bind
    (fun x => (parseIntJS (((setCap (setCap (setCap emptyCaps 1 xs) 2 ys) 0
      (xs ++ 'h' :: ' ' :: (ys ++ ['m']))) 2).getD [])).map fun y => x * 60 + y) =
    some (digitsVal xs * 60 + digitsVal ys)
  have h1 : (setCap (setCap (setCap emptyCaps 1 xs) 2 ys) 0
      (xs ++ 'h' :: ' ' :: (ys ++ ['m']))) 1 = some xs := by
    simp [setCap]
  have h2 : (setCap (setCap (setCap emptyCaps 1 xs) 2 ys) 0
      (xs ++ 'h' :: ' ' :: (ys ++ ['m']))) 2 = some ys := by
    simp [setCap]
  rw [h1, h2, Option.getD_some, Option.getD_some,
    parseIntJS_digits xs hx hdx, parseIntJS_digits ys hy hdy]
  rfl

/-- `parseDuration` on a general `"<hours> hr <minutes> min"` input. -/
lemma parseDuration_hrmin (xs ys : List Char) (hx : xs ≠ []) (hy : ys ≠ [])
    (hdx : ∀ c ∈ xs, c.isDigit = true) (hdy : ∀ c ∈ ys, c.isDigit = true) :
    parseDuration (xs ++ ' ' :: 'h' :: 'r' :: ' ' :: (ys ++ (' ' :: 'm' :: 'i' :: 'n' :: []))) =
      some (digitsVal xs * 60 + digitsVal ys) := by
  unfold parseDuration
  rw [durFull_hit2 xs ys hx hy hdx hdy]
  show (parseIntJS (((setCap (setCap (setCap emptyCaps 1 xs) 2 ys) 0
      (xs ++ ' ' :: 'h' :: 'r' :: ' ' :: (ys ++ (' ' :: 'm' :: 'i' :: 'n' :: [])))) 1).getD [])).bind
    (fun x => (parseIntJS (((setCap (setCap (setCap emptyCaps 1 xs) 2 ys) 0
      (xs ++ ' ' :: 'h' :: 'r' :: ' ' :: (ys ++ (' ' :: 'm' :: 'i' :: 'n' :: [])))) 2).getD [])).map
      fun y => x * 60 + y) =
    some (digitsVal xs * 60 + digitsVal ys)
  have h1 : (setCap (setCap (setCap emptyCaps 1 xs) 2 ys) 0
      (xs ++ ' ' :: 'h' :: 'r' :: ' ' :: (ys ++ (' ' :: 'm' :: 'i' :: 'n' :: [])))) 1 = some xs := by
    simp [setCap]
  have h2 : (setCap (setCap (setCap emptyCaps 1 xs) 2 ys) 0
      (xs ++ ' ' :: 'h' :: 'r' :: ' ' :: (ys ++ (' ' :: 'm' :: 'i' :: 'n' :: [])))) 2 = some ys := by
    simp [setCap]
  rw [h1, h2, Option.getD_some, Option.getD_some,
    parseIntJS_digits xs hx hdx, parseIntJS_digits ys hy hdy]
  rfl

/-- C4: `parseDuration` maps `"1hr30 min"` to 90, `"45m"` to 45, `"3h"` to
180 and the malformed `"abc"` to `null`; in general a combined
`"<X>h <Y>m"` or `"<X> hr <Y> min"` input yields `X*60 + Y` (the combined
pattern is tried before the hours-only and minutes-only ones, as the
definition of `parseDuration` shows); `"12h"` parses as hours only — 720
minutes — and thanks to the negative lookahead-style minutes pattern it is
not matched by the minutes-only regex at all. -/
theorem c4_duration :
    parseDuration ("1hr30 min".data) = some 90 ∧
    parseDuration ("45m".data) = some 45 ∧
    parseDuration ("3h".data) = some 180 ∧
    parseDuration ("abc".data) = none ∧
    parseDuration ("12h".data) = some 720 ∧
    searchRE durMinsRE ("12h".data) = none ∧
    (∀ xs ys : List Char, xs ≠ [] → ys ≠ [] →
      (∀ c ∈ xs, c.isDigit = true) → (∀ c ∈ ys, c.isDigit = true) →
      parseDuration (xs ++ 'h' :: ' ' :: (ys ++ ['m'])) =
        some (digitsVal xs * 60 + digitsVal ys) ∧
      parseDuration (xs ++ ' ' :: 'h' :: 'r' :: ' ' :: (ys ++ (' ' :: 'm' :: 'i' :: 'n' :: []))) =
        some (digitsVal xs * 60 + digitsVal ys)) := by
  refine ⟨rfl, rfl, rfl, rfl, rfl, rfl, ?_⟩
  intro xs ys hx hy hdx hdy
  exact ⟨parseDuration_hm xs ys hx hy hdx hdy, parseDuration_hrmin xs ys hx hy hdx hdy⟩

/-- Witness for C4: the general combined-form clauses applied to the
concrete input `X = 42`, `Y = 7`. -/
theorem c4_duration_witness :
    parseDuration (['4', '2'] ++ 'h' :: ' ' :: (['7'] ++ ['m'])) =
        some (digitsVal ['4', '2'] * 60 + digitsVal ['7']) ∧
    parseDuration (['4', '2'] ++ ' ' :: 'h' :: 'r' :: ' ' ::
        (['7'] ++ (' ' :: 'm' :: 'i' :: 'n' :: []))) =
      some (digitsVal ['4', '2'] * 60 + digitsVal ['7']) :=
  c4_duration.2.2.2.2.2.2 ['4', '2'] ['7'] (by decide) (by decide) (by decide) (by decide)
